import Mathlib

/-!
Shallow embedding of the `ElasticDelayBuffer` class of the `ff_buffers`
module (`src/ff_buffers_ElasticDelayBuffer.h`), together with theorems
settling the specification claims about it.

Modelling conventions:
* C++ `int` values (cursors, delays, counts) are embedded as `Int`; the
  block sizes and capacities handed to the operations are `Nat`.
* Floating-point sample and factor values are embedded as exact rationals;
  the clamp constant `0.0001` is the exact rational `1/10000`.
* The truncated C++ `%` operator is embedded as `Int.tmod`.
* The multi-channel sample container (`juce::AudioBuffer`, an external
  collaborator) is a list of per-channel sample lists plus its sample
  capacity; the per-channel fractional resampler
  (`CircularLagrangeInterpolator`, an external collaborator whose code is
  not among the analyzed sources) is kept opaque, as a parameter
  `ResamplerImpl` that every theorem quantifies over.
-/

namespace FFBuffers

/-- Overwrite the region of `dst` starting at `start` with the samples of
`src` (pointwise, length-preserving); models a raw memory copy into a
channel's sample storage. -/
def storeSeg (dst : List ℚ) (start : Nat) (src : List ℚ) : List ℚ :=
  (List.range dst.length).map (fun k =>
    if start ≤ k ∧ k < start + src.length then src.getD (k - start) 0 else dst.getD k 0)

/-- Add the samples of `src` into the region of `dst` starting at `start`. -/
def addSeg (dst : List ℚ) (start : Nat) (src : List ℚ) : List ℚ :=
  (List.range dst.length).map (fun k =>
    if start ≤ k ∧ k < start + src.length then dst.getD k 0 + src.getD (k - start) 0
    else dst.getD k 0)

/-- The generic multi-channel sample container (`juce::AudioBuffer`):
per-channel sample storage of capacity `numSamples`. -/
structure AudioBuffer where
  numSamples : Nat
  data : List (List ℚ)

def AudioBuffer.getNumChannels (b : AudioBuffer) : Nat := b.data.length

/-- `juce::AudioBuffer::setSize (ch, n, false, true)`: if the dimensions are
unchanged the call is a no-op; otherwise storage is reallocated and (because
`clearExtraSpace` is passed as `true` with `keepExistingContent = false`)
zero-filled. -/
def AudioBuffer.setSize (b : AudioBuffer) (numChannels numSamples : Nat) : AudioBuffer :=
  if b.data.length = numChannels ∧ b.numSamples = numSamples then b
  else ⟨numSamples, List.replicate numChannels (List.replicate numSamples 0)⟩

/-- `juce::AudioBuffer::clear`: zero the storage of every channel. -/
def AudioBuffer.clear (b : AudioBuffer) : AudioBuffer :=
  ⟨b.numSamples, b.data.map (fun _ => List.replicate b.numSamples 0)⟩

/-- `juce::AudioBuffer::copyFrom (ch, destStart, src, num, gain)`:
overwrite `num` samples of channel `ch` starting at `destStart` with the
gain-scaled source samples. -/
def AudioBuffer.copyFrom (b : AudioBuffer) (destChannel destStart : Nat)
    (src : List ℚ) (num : Nat) (gain : ℚ) : AudioBuffer :=
  let newChan := storeSeg (b.data.getD destChannel []) destStart
    ((src.take num).map (fun x => x * gain))
  { b with data := b.data.set destChannel newChan }

/-- `juce::AudioBuffer::addFrom (ch, destStart, src, num, gain)`:
add `num` gain-scaled source samples into channel `ch` at `destStart`. -/
def AudioBuffer.addFrom (b : AudioBuffer) (destChannel destStart : Nat)
    (src : List ℚ) (num : Nat) (gain : ℚ) : AudioBuffer :=
  let newChan := addSeg (b.data.getD destChannel []) destStart
    ((src.take num).map (fun x => x * gain))
  { b with data := b.data.set destChannel newChan }

/-- `juce::AudioBuffer::getReadPointer (ch, start)`: the channel's samples
from index `start` on. -/
def AudioBuffer.getReadPointer (b : AudioBuffer) (channel start : Nat) : List ℚ :=
  (b.data.getD channel []).drop start

/-- Modelled from the spec: the per-channel fractional resampler capability
(`CircularLagrangeInterpolator`, treated by the spec as an opaque external
collaborator; its code is not among the analyzed sources).  `fresh` is the
state right after construction or `reset()`.  `process st f view numOut
avail cap` receives the interpolator state, the stretch factor, the circular
view of the channel ring starting at the read cursor, the requested output
sample count, the contiguous sample count available before the ring wraps
and the ring capacity; it returns the new state, the produced output block
and the number of source samples consumed. -/
structure ResamplerImpl (ρ : Type) where
  fresh : ρ
  process : ρ → ℚ → List ℚ → Nat → Int → Nat → ρ × List ℚ × Nat

/-- The `ElasticDelayBuffer` state: ring storage, per-channel resamplers,
the two cursors, the delay snapshot (`std::atomic<int>` in the source) and
the configured maximal resampling factor. -/
structure ElasticDelayBuffer (ρ : Type) where
  buffer : AudioBuffer
  resamplers : List ρ
  writePosition : Int
  readPosition : Int
  numDelaySamples : Int
  maxResamplingFactor : ℚ

namespace ElasticDelayBuffer

variable {ρ : Type}

/-- The default-constructed `ElasticDelayBuffer` (the uninitialized atomic
delay snapshot is modelled as 0). -/
def initial : ElasticDelayBuffer ρ :=
  ⟨⟨0, []⟩, [], 0, 0, 0, 8⟩

/-- `updateActualSampleDelay`: recompute the delay snapshot from the two
cursors. -/
def updateActualSampleDelay (s : ElasticDelayBuffer ρ) : ElasticDelayBuffer ρ :=
  { s with numDelaySamples :=
      if s.writePosition < s.readPosition
      then s.writePosition + (s.buffer.numSamples : Int) - s.readPosition
      else s.writePosition - s.readPosition }

/-- `reset`: clear every resampler's history. -/
def reset (impl : ResamplerImpl ρ) (s : ElasticDelayBuffer ρ) : ElasticDelayBuffer ρ :=
  { s with resamplers := s.resamplers.map (fun _ => impl.fresh) }

/-- `setSize (numChannels, numSamples, sampleRate)`. -/
def setSize (impl : ResamplerImpl ρ) (s : ElasticDelayBuffer ρ)
    (numChannels numSamples : Nat) (sampleRate : ℚ) : ElasticDelayBuffer ρ :=
  let b := s.buffer.setSize numChannels numSamples
  let rs :=
    if s.resamplers.length < numChannels
    then s.resamplers ++ List.replicate (numChannels - s.resamplers.length) impl.fresh
    else s.resamplers.take numChannels
  if s.writePosition ≥ (numSamples : Int) then
    updateActualSampleDelay
      { s with buffer := b.clear, resamplers := rs.map (fun _ => impl.fresh),
               writePosition := 0 }
  else
    updateActualSampleDelay { s with buffer := b, resamplers := rs }

/-- `setNumSamplesDelay (delay)`. -/
def setNumSamplesDelay (impl : ResamplerImpl ρ) (s : ElasticDelayBuffer ρ)
    (delay : Int) : ElasticDelayBuffer ρ :=
  let assumedRead := s.writePosition - delay
  let s1 := { s with readPosition :=
      if assumedRead < 0 then assumedRead + (s.buffer.numSamples : Int) else assumedRead }
  updateActualSampleDelay (reset impl s1)

/-- `setMaxResamplingFactor (factor)`. -/
def setMaxResamplingFactor (s : ElasticDelayBuffer ρ) (factor : ℚ) : ElasticDelayBuffer ρ :=
  { s with maxResamplingFactor := factor }

/-- `getActualSampleDelay`. -/
def getActualSampleDelay (s : ElasticDelayBuffer ρ) : Int :=
  s.numDelaySamples

/-- The per-channel copy loop of `pushBlock` when the block fits without
wrapping (lines 86-87 of the source). -/
def pushCopyStraight (s : ElasticDelayBuffer ρ) (inputBuffer : AudioBuffer)
    (numSamples : Nat) (gain : ℚ) : AudioBuffer :=
  (List.range s.buffer.getNumChannels).foldl
    (fun b i =>
      b.copyFrom i s.writePosition.toNat (inputBuffer.getReadPointer i 0)
        numSamples gain)
    s.buffer

/-- The per-channel copy loop of `pushBlock` when the block wraps around the
ring end (lines 92-95 of the source; `available` is negative there). -/
def pushCopyWrapped (s : ElasticDelayBuffer ρ) (inputBuffer : AudioBuffer)
    (numSamples : Nat) (gain : ℚ) (available : Int) : AudioBuffer :=
  (List.range s.buffer.getNumChannels).foldl
    (fun b i =>
      (b.copyFrom i s.writePosition.toNat (inputBuffer.getReadPointer i 0)
          ((numSamples : Int) + available).toNat gain).copyFrom
        i 0 (inputBuffer.getReadPointer i ((numSamples : Int) + available).toNat)
        (-available).toNat gain)
    s.buffer

/-- `pushBlock (inputBuffer, numSamples, gain)`. -/
def pushBlock (s : ElasticDelayBuffer ρ) (inputBuffer : AudioBuffer)
    (numSamples : Nat) (gain : ℚ) : ElasticDelayBuffer ρ :=
  let available : Int := (s.buffer.numSamples : Int) - (s.writePosition + numSamples)
  let s' :=
    if 0 ≤ available then
      { s with buffer := pushCopyStraight s inputBuffer numSamples gain,
               writePosition := s.writePosition + numSamples }
    else
      { s with buffer := pushCopyWrapped s inputBuffer numSamples gain available,
               writePosition := -available }
  updateActualSampleDelay s'

/-- The per-channel add loop of `addToPushedBlock` when the region does not
wrap (lines 112-113 of the source); `previousWrite` is the recomputed start
of the most recently pushed region. -/
def addStraight (s : ElasticDelayBuffer ρ) (inputBuffer : AudioBuffer)
    (numSamples : Nat) (gain : ℚ) (previousWrite : Int) : AudioBuffer :=
  (List.range s.buffer.getNumChannels).foldl
    (fun b i =>
      b.addFrom i previousWrite.toNat (inputBuffer.getReadPointer i 0) numSamples gain)
    s.buffer

/-- The per-channel add loop of `addToPushedBlock` when the region wraps
(lines 116-118 of the source; `available` is negative there). -/
def addWrapped (s : ElasticDelayBuffer ρ) (inputBuffer : AudioBuffer)
    (numSamples : Nat) (gain : ℚ) (previousWrite available : Int) : AudioBuffer :=
  (List.range s.buffer.getNumChannels).foldl
    (fun b i =>
      (b.addFrom i previousWrite.toNat (inputBuffer.getReadPointer i 0)
          ((numSamples : Int) + available).toNat gain).addFrom
        i 0 (inputBuffer.getReadPointer i ((numSamples : Int) + available).toNat)
        (-available).toNat gain)
    s.buffer

/-- Lines 107-109 of `addToPushedBlock`: the start of the most recently
pushed region of `numSamples` samples, ending at the current write cursor. -/
def previousWriteOf (s : ElasticDelayBuffer ρ) (numSamples : Nat) : Int :=
  let previousWrite0 := s.writePosition - numSamples
  if previousWrite0 < 0 then previousWrite0 + (s.buffer.numSamples : Int)
  else previousWrite0

/-- `addToPushedBlock (inputBuffer, numSamples, gain)`. -/
def addToPushedBlock (s : ElasticDelayBuffer ρ) (inputBuffer : AudioBuffer)
    (numSamples : Nat) (gain : ℚ) : ElasticDelayBuffer ρ :=
  let previousWrite := previousWriteOf s numSamples
  let available : Int := (s.buffer.numSamples : Int) - (previousWrite + numSamples)
  if 0 ≤ available then
    { s with buffer := addStraight s inputBuffer numSamples gain previousWrite }
  else
    { s with buffer := addWrapped s inputBuffer numSamples gain previousWrite available }

/-- Lines 129-130 of `pullBlock`: the current buffered delay. -/
def currentDelayOf (s : ElasticDelayBuffer ρ) : Int :=
  let d := s.writePosition - s.readPosition
  if d < 0 then d + (s.buffer.numSamples : Int) else d

/-- Lines 132-133 of `pullBlock`: the resampling factor before clamping. -/
def pullFactorPre (s : ElasticDelayBuffer ρ) (numSamples : Nat) (delayTime : Int) : ℚ :=
  let difference : ℚ := ((currentDelayOf s : ℚ) - (numSamples : ℚ)) - (delayTime : ℚ)
  1 + difference / ((numSamples : ℚ) * 8)

/-- Lines 133-137 of `pullBlock`: the resampling factor actually applied,
after the lower clamp at `0.0001` and then the upper clamp at
`maxResamplingFactor`. -/
def pullFactor (s : ElasticDelayBuffer ρ) (numSamples : Nat) (delayTime : Int) : ℚ :=
  let f1 :=
    if pullFactorPre s numSamples delayTime < (1 / 10000 : ℚ) then (1 / 10000 : ℚ)
    else pullFactorPre s numSamples delayTime
  if f1 > s.maxResamplingFactor then s.maxResamplingFactor else f1

/-- One `resamplers.getUnchecked (channel)->process (...)` call of
`pullBlock`, with the arguments of lines 141-145. -/
def resampleCall (impl : ResamplerImpl ρ) (factor : ℚ) (buf : AudioBuffer)
    (readPos : Int) (numSamples : Nat) (channel : Nat) (st : ρ) : ρ × List ℚ × Nat :=
  impl.process st factor
    (buf.getReadPointer channel readPos.toNat ++ (buf.data.getD channel []).take readPos.toNat)
    numSamples ((buf.numSamples : Int) - readPos) buf.numSamples

/-- One iteration of the per-channel loop of `pullBlock` (lines 140-146):
updates the resampler state and the output storage of `channel` and
overwrites the `used` counter with the consumed count of this channel. -/
def pullStep (impl : ResamplerImpl ρ) (factor : ℚ) (buf : AudioBuffer) (readPos : Int)
    (numSamples : Nat) (acc : List ρ × List (List ℚ) × Nat) (channel : Nat) :
    List ρ × List (List ℚ) × Nat :=
  let res := resampleCall impl factor buf readPos numSamples channel
    (acc.1.getD channel impl.fresh)
  (acc.1.set channel res.1,
   acc.2.1.set channel (storeSeg (acc.2.1.getD channel []) 0 (res.2.1.take numSamples)),
   res.2.2)

/-- The per-channel loop of `pullBlock` (lines 139-146): threads the
resampler states, the output storage and the `used` counter (initially 0,
overwritten by every channel). -/
def pullFold (impl : ResamplerImpl ρ) (factor : ℚ) (buf : AudioBuffer) (readPos : Int)
    (numSamples : Nat) (chans : Nat) (rs0 : List ρ) (out0 : List (List ℚ)) :
    List ρ × List (List ℚ) × Nat :=
  (List.range chans).foldl (pullStep impl factor buf readPos numSamples) (rs0, out0, 0)

/-- `pullBlock (outputBuffer, numSamples, delayTime)`: returns the new
buffer state and the filled output container. -/
def pullBlock (impl : ResamplerImpl ρ) (s : ElasticDelayBuffer ρ)
    (outputBuffer : AudioBuffer) (numSamples : Nat) (delayTime : Int) :
    ElasticDelayBuffer ρ × AudioBuffer :=
  let factor := pullFactor s numSamples delayTime
  let acc := pullFold impl factor s.buffer s.readPosition numSamples
    outputBuffer.getNumChannels s.resamplers outputBuffer.data
  let newRead := (s.readPosition + (acc.2.2 : Int)).tmod (s.buffer.numSamples : Int)
  let s' := { s with resamplers := acc.1, readPosition := newRead }
  (updateActualSampleDelay s', { outputBuffer with data := acc.2.1 })

/-- The states reachable through the public operations invoked with their
documented preconditions. -/
inductive Reach (impl : ResamplerImpl ρ) : ElasticDelayBuffer ρ → Prop where
  | start : Reach impl initial
  | size {s} (numChannels numSamples : Nat) (sampleRate : ℚ) :
      Reach impl s → Reach impl (setSize impl s numChannels numSamples sampleRate)
  | delayJump {s} (d : Int) :
      Reach impl s → 0 ≤ d → d < (s.buffer.numSamples : Int) →
      Reach impl (setNumSamplesDelay impl s d)
  | maxFactor {s} (f : ℚ) :
      Reach impl s → Reach impl (setMaxResamplingFactor s f)
  | doReset {s} :
      Reach impl s → Reach impl (reset impl s)
  | push {s} (input : AudioBuffer) (num : Nat) (gain : ℚ) :
      Reach impl s → (num : Int) < (s.buffer.numSamples : Int) →
      input.getNumChannels = s.buffer.getNumChannels →
      Reach impl (pushBlock s input num gain)
  | addTo {s} (input : AudioBuffer) (num : Nat) (gain : ℚ) :
      Reach impl s → (num : Int) < (s.buffer.numSamples : Int) →
      input.getNumChannels = s.buffer.getNumChannels →
      Reach impl (addToPushedBlock s input num gain)
  | pull {s} (output : AudioBuffer) (num : Nat) (dt : Int) :
      Reach impl s → (output.numSamples : Int) < (s.buffer.numSamples : Int) →
      output.getNumChannels = s.buffer.getNumChannels →
      s.resamplers.length = s.buffer.getNumChannels →
      Reach impl (pullBlock impl s output num dt).1

end ElasticDelayBuffer

open ElasticDelayBuffer

/-- A concrete resampler instance used for witnesses: its state records the
factors it has been handed, it consumes exactly `numSamples` source samples
and emits the first `numSamples` samples of its view. -/
def recResampler : ResamplerImpl (List ℚ) :=
  ⟨[], fun st f view num _ _ => (f :: st, (view.take num, num))⟩

/-- A concrete, well-formed buffer state used by witnesses: capacity 8, one
channel, write cursor 5, read cursor 2, delay snapshot 3, default maximal
resampling factor. -/
def demoState : ElasticDelayBuffer (List ℚ) :=
  ⟨⟨8, [[1, 2, 3, 4, 5, 6, 7, 8]]⟩, [[]], 5, 2, 3, 8⟩

/-- A concrete input block of 9 samples. -/
def c1Input : AudioBuffer := ⟨9, [[1, 2, 3, 4, 5, 6, 7, 8, 9]]⟩

/-- The state reached by `setSize (1, 10, 44100)`, `pushBlock` of 9 samples,
`setNumSamplesDelay (1)` (so `writePosition = 9`, `readPosition = 8`), and
then the shrinking `setSize (1, 5, 44100)`, whose hard-reset branch fires
because `writePosition = 9 ≥ 5`. -/
def c1State : ElasticDelayBuffer (List ℚ) :=
  setSize recResampler
    (setNumSamplesDelay recResampler
      (pushBlock (setSize recResampler initial 1 10 44100) c1Input 9 1) 1)
    1 5 44100

/-- A concrete input block of 3 samples. -/
def c2In3 : AudioBuffer := ⟨3, [[1, 1, 1]]⟩

/-- A concrete input block of 1 sample. -/
def c2In1 : AudioBuffer := ⟨1, [[2]]⟩

/-- The state reached by `setSize (1, 4, 44100)`, a push of 3 samples and a
push of 1 sample: the second push fills the ring to exactly its capacity. -/
def c2State : ElasticDelayBuffer (List ℚ) :=
  pushBlock (pushBlock (setSize recResampler initial 1 4 44100) c2In3 3 1) c2In1 1 1

/-- A concrete well-formed state with capacity 8, one channel, a buffered
delay of 4 samples and the default maximal resampling factor. -/
def c4Base : ElasticDelayBuffer (List ℚ) :=
  ⟨⟨8, [[0, 0, 0, 0, 0, 0, 0, 0]]⟩, [[]], 4, 0, 4, 8⟩

/-- A concrete well-formed state with capacity 6, one channel, write cursor
4: a push of 2 samples fills the ring to exactly its capacity. -/
def c6Base : ElasticDelayBuffer (List ℚ) :=
  ⟨⟨6, [[10, 20, 30, 40, 50, 60]]⟩, [[]], 4, 1, 3, 8⟩

/-- A concrete input block of 2 samples. -/
def c6In : AudioBuffer := ⟨2, [[7, 9]]⟩

/-- A concrete output container for 2 samples. -/
def c4Out : AudioBuffer := ⟨2, [[0, 0]]⟩

theorem storeSeg_length (dst : List ℚ) (start : Nat) (src : List ℚ) :
    (storeSeg dst start src).length = dst.length := by
  simp [storeSeg]

theorem addSeg_length (dst : List ℚ) (start : Nat) (src : List ℚ) :
    (addSeg dst start src).length = dst.length := by
  simp [addSeg]

theorem storeSeg_getD (dst : List ℚ) (start : Nat) (src : List ℚ) (k : Nat)
    (hk : k < dst.length) :
    (storeSeg dst start src).getD k 0 =
      if start ≤ k ∧ k < start + src.length then src.getD (k - start) 0
      else dst.getD k 0 := by
  simp [storeSeg, List.getD_eq_getElem?_getD, List.getElem?_range hk]

theorem addSeg_getD (dst : List ℚ) (start : Nat) (src : List ℚ) (k : Nat)
    (hk : k < dst.length) :
    (addSeg dst start src).getD k 0 =
      if start ≤ k ∧ k < start + src.length then dst.getD k 0 + src.getD (k - start) 0
      else dst.getD k 0 := by
  simp [addSeg, List.getD_eq_getElem?_getD, List.getElem?_range hk]

theorem foldl_setChan_succ (g : Nat → List ℚ → List ℚ) (n : Nat) (d : List (List ℚ)) :
    ((List.range (n + 1)).foldl (fun acc i => acc.set i (g i (acc.getD i []))) d) =
      (((List.range n).foldl (fun acc i => acc.set i (g i (acc.getD i []))) d).set n
        (g n (((List.range n).foldl (fun acc i => acc.set i (g i (acc.getD i []))) d).getD
          n []))) := by
  rw [List.range_succ, List.foldl_append, List.foldl_cons, List.foldl_nil]

theorem foldl_setChan_length (g : Nat → List ℚ → List ℚ) (n : Nat) (d : List (List ℚ)) :
    ((List.range n).foldl (fun acc i => acc.set i (g i (acc.getD i []))) d).length
      = d.length := by
  induction n with
  | zero => rfl
  | succ n ih => rw [foldl_setChan_succ, List.length_set]; exact ih

theorem foldl_setChan_getD (g : Nat → List ℚ → List ℚ) (n : Nat) (d : List (List ℚ))
    (j : Nat) :
    ((List.range n).foldl (fun acc i => acc.set i (g i (acc.getD i []))) d).getD j [] =
      if j < n ∧ j < d.length then g j (d.getD j []) else d.getD j [] := by
  induction n generalizing j with
  | zero =>
    rw [if_neg (by omega)]
    rfl
  | succ n ih =>
    rw [foldl_setChan_succ]
    have hprev : ((List.range n).foldl (fun acc i => acc.set i (g i (acc.getD i []))) d).getD
        n [] = d.getD n [] := by
      rw [ih n, if_neg (by omega)]
    rcases eq_or_ne j n with rfl | hjn
    · rcases Nat.lt_or_ge j d.length with hl | hl
      · have hlen : j <
            ((List.range j).foldl (fun acc i => acc.set i (g i (acc.getD i []))) d).length := by
          rw [foldl_setChan_length]; exact hl
        rw [if_pos ⟨Nat.lt_succ_self j, hl⟩, List.getD_eq_getElem?_getD,
          List.getElem?_set_self hlen, Option.getD_some, hprev]
      · have hlen : ((List.range j).foldl
            (fun acc i => acc.set i (g i (acc.getD i []))) d).length ≤ j := by
          rw [foldl_setChan_length]; exact hl
        rw [List.set_eq_of_length_le hlen, ih j, if_neg (by omega), if_neg (by omega)]
    · rw [List.getD_eq_getElem?_getD, List.getElem?_set_ne (by omega),
        ← List.getD_eq_getElem?_getD, ih j]
      by_cases hj : j < n
      · by_cases hd : j < d.length
        · rw [if_pos ⟨hj, hd⟩, if_pos ⟨by omega, hd⟩]
        · rw [if_neg (by omega), if_neg (by omega)]
      · rw [if_neg (by omega), if_neg (by omega)]

theorem double_set_collapse (d : List (List ℚ)) (i : Nat) (f1 f2 : List ℚ → List ℚ) :
    (d.set i (f1 (d.getD i []))).set i
        (f2 ((d.set i (f1 (d.getD i []))).getD i [])) =
      d.set i (f2 (f1 (d.getD i []))) := by
  rcases Nat.lt_or_ge i d.length with h | h
  · have : (d.set i (f1 (d.getD i []))).getD i [] = f1 (d.getD i []) := by
      rw [List.getD_eq_getElem?_getD, List.getElem?_set_self h]; rfl
    rw [this, List.set_set]
  · rw [List.set_eq_of_length_le h, List.set_eq_of_length_le h, List.set_eq_of_length_le h]

theorem foldl_buf_data (f : AudioBuffer → Nat → AudioBuffer)
    (g : Nat → List ℚ → List ℚ)
    (hf : ∀ b i, (f b i).numSamples = b.numSamples ∧
                 (f b i).data = b.data.set i (g i (b.data.getD i [])))
    (l : List Nat) (b : AudioBuffer) :
    (l.foldl f b).numSamples = b.numSamples ∧
    (l.foldl f b).data = l.foldl (fun acc i => acc.set i (g i (acc.getD i []))) b.data := by
  induction l generalizing b with
  | nil => exact ⟨rfl, rfl⟩
  | cons a l ih =>
    simp only [List.foldl_cons]
    rcases ih (f b a) with ⟨h1, h2⟩
    refine ⟨h1.trans (hf b a).1, ?_⟩
    rw [h2, (hf b a).2]

theorem pullStep_fst {ρ : Type} (impl : ResamplerImpl ρ) (factor : ℚ) (buf : AudioBuffer)
    (rp : Int) (num : Nat) (acc : List ρ × List (List ℚ) × Nat) (ch : Nat) :
    (ElasticDelayBuffer.pullStep impl factor buf rp num acc ch).1 =
      acc.1.set ch (ElasticDelayBuffer.resampleCall impl factor buf rp num ch
        (acc.1.getD ch impl.fresh)).1 :=
  rfl

theorem pullStep_used {ρ : Type} (impl : ResamplerImpl ρ) (factor : ℚ) (buf : AudioBuffer)
    (rp : Int) (num : Nat) (acc : List ρ × List (List ℚ) × Nat) (ch : Nat) :
    (ElasticDelayBuffer.pullStep impl factor buf rp num acc ch).2.2 =
      (ElasticDelayBuffer.resampleCall impl factor buf rp num ch
        (acc.1.getD ch impl.fresh)).2.2 :=
  rfl

theorem pullFold_succ {ρ : Type} (impl : ResamplerImpl ρ) (factor : ℚ) (buf : AudioBuffer)
    (rp : Int) (num n : Nat) (rs0 : List ρ) (out0 : List (List ℚ)) :
    ElasticDelayBuffer.pullFold impl factor buf rp num (n + 1) rs0 out0 =
      ElasticDelayBuffer.pullStep impl factor buf rp num
        (ElasticDelayBuffer.pullFold impl factor buf rp num n rs0 out0) n := by
  unfold ElasticDelayBuffer.pullFold
  rw [List.range_succ, List.foldl_append, List.foldl_cons, List.foldl_nil]

theorem pullFold_fst_length {ρ : Type} (impl : ResamplerImpl ρ) (factor : ℚ)
    (buf : AudioBuffer) (rp : Int) (num chans : Nat) (rs0 : List ρ)
    (out0 : List (List ℚ)) :
    (ElasticDelayBuffer.pullFold impl factor buf rp num chans rs0 out0).1.length
      = rs0.length := by
  induction chans with
  | zero => rfl
  | succ n ih =>
    rw [pullFold_succ, pullStep_fst, List.length_set]
    exact ih

theorem pullFold_fst_getD {ρ : Type} (impl : ResamplerImpl ρ) (factor : ℚ)
    (buf : AudioBuffer) (rp : Int) (num chans : Nat) (rs0 : List ρ)
    (out0 : List (List ℚ)) (j : Nat) :
    (ElasticDelayBuffer.pullFold impl factor buf rp num chans rs0 out0).1.getD j impl.fresh =
      if j < chans ∧ j < rs0.length
      then (ElasticDelayBuffer.resampleCall impl factor buf rp num j
              (rs0.getD j impl.fresh)).1
      else rs0.getD j impl.fresh := by
  induction chans generalizing j with
  | zero => simp [ElasticDelayBuffer.pullFold]
  | succ n ih =>
    rw [pullFold_succ, pullStep_fst]
    have hprev : (ElasticDelayBuffer.pullFold impl factor buf rp num n rs0 out0).1.getD n
        impl.fresh = rs0.getD n impl.fresh := by
      rw [ih n]; simp
    rcases eq_or_ne j n with rfl | hjn
    · rcases Nat.lt_or_ge j rs0.length with hl | hl
      · have hlen : j <
            (ElasticDelayBuffer.pullFold impl factor buf rp num j rs0 out0).1.length := by
          rw [pullFold_fst_length]; exact hl
        rw [List.getD_eq_getElem?_getD, List.getElem?_set_self hlen, hprev]
        simp [hl]
      · have hlen : (ElasticDelayBuffer.pullFold impl factor buf rp num j rs0 out0).1.length
            ≤ j := by
          rw [pullFold_fst_length]; exact hl
        rw [List.set_eq_of_length_le hlen, ih j]
        simp [Nat.not_lt.mpr hl]
    · rw [List.getD_eq_getElem?_getD, List.getElem?_set_ne (by omega),
        ← List.getD_eq_getElem?_getD, ih j]
      by_cases hj : j < n
      · simp [hj, Nat.lt_succ_of_lt hj]
      · have : ¬ j < n + 1 := by omega
        simp [hj, this]

theorem pullFold_used {ρ : Type} (impl : ResamplerImpl ρ) (factor : ℚ) (buf : AudioBuffer)
    (rp : Int) (num chans : Nat) (rs0 : List ρ) (out0 : List (List ℚ)) :
    (ElasticDelayBuffer.pullFold impl factor buf rp num chans rs0 out0).2.2 =
      if chans = 0 then 0
      else (ElasticDelayBuffer.resampleCall impl factor buf rp num (chans - 1)
              (rs0.getD (chans - 1) impl.fresh)).2.2 := by
  cases chans with
  | zero => rfl
  | succ n =>
    rw [pullFold_succ, pullStep_used]
    have hprev : (ElasticDelayBuffer.pullFold impl factor buf rp num n rs0 out0).1.getD n
        impl.fresh = rs0.getD n impl.fresh := by
      rw [pullFold_fst_getD]; simp
    rw [hprev]
    simp

theorem scaled_length (src : List ℚ) (num : Nat) (gain : ℚ) (h : num ≤ src.length) :
    ((src.take num).map (fun x => x * gain)).length = num := by
  simp [Nat.min_eq_left h]

theorem scaled_getD (src : List ℚ) (num j : Nat) (gain : ℚ) (hj : j < num)
    (hlen : j < src.length) :
    ((src.take num).map (fun x => x * gain)).getD j 0 = src.getD j 0 * gain := by
  rw [List.getD_eq_getElem?_getD, List.getElem?_map, List.getElem?_take_of_lt hj,
    List.getElem?_eq_getElem hlen, List.getD_eq_getElem?_getD,
    List.getElem?_eq_getElem hlen]
  rfl

theorem foldl_numSamples (f : AudioBuffer → Nat → AudioBuffer)
    (h : ∀ b i, (f b i).numSamples = b.numSamples) (l : List Nat) (b : AudioBuffer) :
    (l.foldl f b).numSamples = b.numSamples := by
  induction l generalizing b with
  | nil => rfl
  | cons a l ih => rw [List.foldl_cons, ih (f b a), h b a]

theorem setSize_buffer_numSamples (b : AudioBuffer) (ch n : Nat) :
    (b.setSize ch n).numSamples = n := by
  unfold AudioBuffer.setSize
  split_ifs with h
  · exact h.2
  · rfl

theorem update_writePosition {ρ : Type} (s : ElasticDelayBuffer ρ) :
    (updateActualSampleDelay s).writePosition = s.writePosition := rfl

theorem update_readPosition {ρ : Type} (s : ElasticDelayBuffer ρ) :
    (updateActualSampleDelay s).readPosition = s.readPosition := rfl

theorem update_buffer {ρ : Type} (s : ElasticDelayBuffer ρ) :
    (updateActualSampleDelay s).buffer = s.buffer := rfl

theorem update_resamplers {ρ : Type} (s : ElasticDelayBuffer ρ) :
    (updateActualSampleDelay s).resamplers = s.resamplers := rfl

theorem update_numDelaySamples {ρ : Type} (s : ElasticDelayBuffer ρ) :
    (updateActualSampleDelay s).numDelaySamples =
      (if s.writePosition < s.readPosition
       then s.writePosition + (s.buffer.numSamples : Int) - s.readPosition
       else s.writePosition - s.readPosition) := rfl

theorem pushCopyStraight_numSamples {ρ : Type} (s : ElasticDelayBuffer ρ)
    (input : AudioBuffer) (num : Nat) (gain : ℚ) :
    (pushCopyStraight s input num gain).numSamples = s.buffer.numSamples :=
  (foldl_buf_data
    (fun b i => b.copyFrom i s.writePosition.toNat (input.getReadPointer i 0) num gain)
    (fun i ch => storeSeg ch s.writePosition.toNat
      (((input.getReadPointer i 0).take num).map (fun x => x * gain)))
    (fun _ _ => ⟨rfl, rfl⟩)
    (List.range s.buffer.getNumChannels) s.buffer).1

theorem pushCopyStraight_getD {ρ : Type} (s : ElasticDelayBuffer ρ)
    (input : AudioBuffer) (num : Nat) (gain : ℚ) (j : Nat) :
    (pushCopyStraight s input num gain).data.getD j [] =
      (if j < s.buffer.data.length
       then storeSeg (s.buffer.data.getD j []) s.writePosition.toNat
         (((input.getReadPointer j 0).take num).map (fun x => x * gain))
       else s.buffer.data.getD j []) := by
  have h := (foldl_buf_data
    (fun b i => b.copyFrom i s.writePosition.toNat (input.getReadPointer i 0) num gain)
    (fun i ch => storeSeg ch s.writePosition.toNat
      (((input.getReadPointer i 0).take num).map (fun x => x * gain)))
    (fun _ _ => ⟨rfl, rfl⟩)
    (List.range s.buffer.getNumChannels) s.buffer).2
  show ((List.range s.buffer.getNumChannels).foldl
    (fun b i => b.copyFrom i s.writePosition.toNat (input.getReadPointer i 0) num gain)
    s.buffer).data.getD j [] = _
  rw [h, foldl_setChan_getD (fun i ch => storeSeg ch s.writePosition.toNat
    (((input.getReadPointer i 0).take num).map (fun x => x * gain)))]
  by_cases hd : j < s.buffer.data.length
  · rw [if_pos ⟨hd, hd⟩, if_pos hd]
  · rw [if_neg (fun hc => hd hc.2), if_neg hd]

theorem pushCopyWrapped_numSamples {ρ : Type} (s : ElasticDelayBuffer ρ)
    (input : AudioBuffer) (num : Nat) (gain : ℚ) (available : Int) :
    (pushCopyWrapped s input num gain available).numSamples = s.buffer.numSamples :=
  (foldl_buf_data
    (fun b i =>
      (b.copyFrom i s.writePosition.toNat (input.getReadPointer i 0)
          ((num : Int) + available).toNat gain).copyFrom
        i 0 (input.getReadPointer i ((num : Int) + available).toNat)
        (-available).toNat gain)
    (fun i ch => storeSeg
      (storeSeg ch s.writePosition.toNat
        (((input.getReadPointer i 0).take ((num : Int) + available).toNat).map
          (fun x => x * gain)))
      0
      (((input.getReadPointer i ((num : Int) + available).toNat).take
          (-available).toNat).map (fun x => x * gain)))
    (fun b i => ⟨rfl, double_set_collapse b.data i
      (fun ch => storeSeg ch s.writePosition.toNat
        (((input.getReadPointer i 0).take ((num : Int) + available).toNat).map
          (fun x => x * gain)))
      (fun ch => storeSeg ch 0
        (((input.getReadPointer i ((num : Int) + available).toNat).take
            (-available).toNat).map (fun x => x * gain)))⟩)
    (List.range s.buffer.getNumChannels) s.buffer).1

theorem pushCopyWrapped_getD {ρ : Type} (s : ElasticDelayBuffer ρ)
    (input : AudioBuffer) (num : Nat) (gain : ℚ) (available : Int) (j : Nat) :
    (pushCopyWrapped s input num gain available).data.getD j [] =
      (if j < s.buffer.data.length
       then storeSeg
         (storeSeg (s.buffer.data.getD j []) s.writePosition.toNat
           (((input.getReadPointer j 0).take ((num : Int) + available).toNat).map
             (fun x => x * gain)))
         0
         (((input.getReadPointer j ((num : Int) + available).toNat).take
             (-available).toNat).map (fun x => x * gain))
       else s.buffer.data.getD j []) := by
  have h := (foldl_buf_data
    (fun b i =>
      (b.copyFrom i s.writePosition.toNat (input.getReadPointer i 0)
          ((num : Int) + available).toNat gain).copyFrom
        i 0 (input.getReadPointer i ((num : Int) + available).toNat)
        (-available).toNat gain)
    (fun i ch => storeSeg
      (storeSeg ch s.writePosition.toNat
        (((input.getReadPointer i 0).take ((num : Int) + available).toNat).map
          (fun x => x * gain)))
      0
      (((input.getReadPointer i ((num : Int) + available).toNat).take
          (-available).toNat).map (fun x => x * gain)))
    (fun b i => ⟨rfl, double_set_collapse b.data i
      (fun ch => storeSeg ch s.writePosition.toNat
        (((input.getReadPointer i 0).take ((num : Int) + available).toNat).map
          (fun x => x * gain)))
      (fun ch => storeSeg ch 0
        (((input.getReadPointer i ((num : Int) + available).toNat).take
            (-available).toNat).map (fun x => x * gain)))⟩)
    (List.range s.buffer.getNumChannels) s.buffer).2
  show ((List.range s.buffer.getNumChannels).foldl
    (fun b i =>
      (b.copyFrom i s.writePosition.toNat (input.getReadPointer i 0)
          ((num : Int) + available).toNat gain).copyFrom
        i 0 (input.getReadPointer i ((num : Int) + available).toNat)
        (-available).toNat gain)
    s.buffer).data.getD j [] = _
  rw [h, foldl_setChan_getD (fun i ch => storeSeg
    (storeSeg ch s.writePosition.toNat
      (((input.getReadPointer i 0).take ((num : Int) + available).toNat).map
        (fun x => x * gain)))
    0
    (((input.getReadPointer i ((num : Int) + available).toNat).take
        (-available).toNat).map (fun x => x * gain)))]
  by_cases hd : j < s.buffer.data.length
  · rw [if_pos ⟨hd, hd⟩, if_pos hd]
  · rw [if_neg (fun hc => hd hc.2), if_neg hd]

theorem pushBlock_cases {ρ : Type} (s : ElasticDelayBuffer ρ) (input : AudioBuffer)
    (num : Nat) (gain : ℚ) :
    pushBlock s input num gain =
      (if 0 ≤ (s.buffer.numSamples : Int) - (s.writePosition + num)
       then updateActualSampleDelay
         { s with buffer := pushCopyStraight s input num gain,
                  writePosition := s.writePosition + num }
       else updateActualSampleDelay
         { s with
           buffer :=
             pushCopyWrapped s input num gain ((s.buffer.numSamples : Int) - (s.writePosition + num)),
           writePosition := -((s.buffer.numSamples : Int) - (s.writePosition + num)) }) := by
  simp only [pushBlock]
  split_ifs <;> rfl

theorem addStraight_numSamples {ρ : Type} (s : ElasticDelayBuffer ρ)
    (input : AudioBuffer) (num : Nat) (gain : ℚ) (pw : Int) :
    (addStraight s input num gain pw).numSamples = s.buffer.numSamples :=
  (foldl_buf_data
    (fun b i => b.addFrom i pw.toNat (input.getReadPointer i 0) num gain)
    (fun i ch => addSeg ch pw.toNat
      (((input.getReadPointer i 0).take num).map (fun x => x * gain)))
    (fun _ _ => ⟨rfl, rfl⟩)
    (List.range s.buffer.getNumChannels) s.buffer).1

theorem addStraight_getD {ρ : Type} (s : ElasticDelayBuffer ρ)
    (input : AudioBuffer) (num : Nat) (gain : ℚ) (pw : Int) (j : Nat) :
    (addStraight s input num gain pw).data.getD j [] =
      (if j < s.buffer.data.length
       then addSeg (s.buffer.data.getD j []) pw.toNat
         (((input.getReadPointer j 0).take num).map (fun x => x * gain))
       else s.buffer.data.getD j []) := by
  have h := (foldl_buf_data
    (fun b i => b.addFrom i pw.toNat (input.getReadPointer i 0) num gain)
    (fun i ch => addSeg ch pw.toNat
      (((input.getReadPointer i 0).take num).map (fun x => x * gain)))
    (fun _ _ => ⟨rfl, rfl⟩)
    (List.range s.buffer.getNumChannels) s.buffer).2
  show ((List.range s.buffer.getNumChannels).foldl
    (fun b i => b.addFrom i pw.toNat (input.getReadPointer i 0) num gain)
    s.buffer).data.getD j [] = _
  rw [h, foldl_setChan_getD (fun i ch => addSeg ch pw.toNat
    (((input.getReadPointer i 0).take num).map (fun x => x * gain)))]
  by_cases hd : j < s.buffer.data.length
  · rw [if_pos ⟨hd, hd⟩, if_pos hd]
  · rw [if_neg (fun hc => hd hc.2), if_neg hd]

theorem addWrapped_numSamples {ρ : Type} (s : ElasticDelayBuffer ρ)
    (input : AudioBuffer) (num : Nat) (gain : ℚ) (pw available : Int) :
    (addWrapped s input num gain pw available).numSamples = s.buffer.numSamples :=
  (foldl_buf_data
    (fun b i =>
      (b.addFrom i pw.toNat (input.getReadPointer i 0)
          ((num : Int) + available).toNat gain).addFrom
        i 0 (input.getReadPointer i ((num : Int) + available).toNat)
        (-available).toNat gain)
    (fun i ch => addSeg
      (addSeg ch pw.toNat
        (((input.getReadPointer i 0).take ((num : Int) + available).toNat).map
          (fun x => x * gain)))
      0
      (((input.getReadPointer i ((num : Int) + available).toNat).take
          (-available).toNat).map (fun x => x * gain)))
    (fun b i => ⟨rfl, double_set_collapse b.data i
      (fun ch => addSeg ch pw.toNat
        (((input.getReadPointer i 0).take ((num : Int) + available).toNat).map
          (fun x => x * gain)))
      (fun ch => addSeg ch 0
        (((input.getReadPointer i ((num : Int) + available).toNat).take
            (-available).toNat).map (fun x => x * gain)))⟩)
    (List.range s.buffer.getNumChannels) s.buffer).1

theorem addWrapped_getD {ρ : Type} (s : ElasticDelayBuffer ρ)
    (input : AudioBuffer) (num : Nat) (gain : ℚ) (pw available : Int) (j : Nat) :
    (addWrapped s input num gain pw available).data.getD j [] =
      (if j < s.buffer.data.length
       then addSeg
         (addSeg (s.buffer.data.getD j []) pw.toNat
           (((input.getReadPointer j 0).take ((num : Int) + available).toNat).map
             (fun x => x * gain)))
         0
         (((input.getReadPointer j ((num : Int) + available).toNat).take
             (-available).toNat).map (fun x => x * gain))
       else s.buffer.data.getD j []) := by
  have h := (foldl_buf_data
    (fun b i =>
      (b.addFrom i pw.toNat (input.getReadPointer i 0)
          ((num : Int) + available).toNat gain).addFrom
        i 0 (input.getReadPointer i ((num : Int) + available).toNat)
        (-available).toNat gain)
    (fun i ch => addSeg
      (addSeg ch pw.toNat
        (((input.getReadPointer i 0).take ((num : Int) + available).toNat).map
          (fun x => x * gain)))
      0
      (((input.getReadPointer i ((num : Int) + available).toNat).take
          (-available).toNat).map (fun x => x * gain)))
    (fun b i => ⟨rfl, double_set_collapse b.data i
      (fun ch => addSeg ch pw.toNat
        (((input.getReadPointer i 0).take ((num : Int) + available).toNat).map
          (fun x => x * gain)))
      (fun ch => addSeg ch 0
        (((input.getReadPointer i ((num : Int) + available).toNat).take
            (-available).toNat).map (fun x => x * gain)))⟩)
    (List.range s.buffer.getNumChannels) s.buffer).2
  show ((List.range s.buffer.getNumChannels).foldl
    (fun b i =>
      (b.addFrom i pw.toNat (input.getReadPointer i 0)
          ((num : Int) + available).toNat gain).addFrom
        i 0 (input.getReadPointer i ((num : Int) + available).toNat)
        (-available).toNat gain)
    s.buffer).data.getD j [] = _
  rw [h, foldl_setChan_getD (fun i ch => addSeg
    (addSeg ch pw.toNat
      (((input.getReadPointer i 0).take ((num : Int) + available).toNat).map
        (fun x => x * gain)))
    0
    (((input.getReadPointer i ((num : Int) + available).toNat).take
        (-available).toNat).map (fun x => x * gain)))]
  by_cases hd : j < s.buffer.data.length
  · rw [if_pos ⟨hd, hd⟩, if_pos hd]
  · rw [if_neg (fun hc => hd hc.2), if_neg hd]

theorem addToPushedBlock_cases {ρ : Type} (s : ElasticDelayBuffer ρ)
    (input : AudioBuffer) (num : Nat) (gain : ℚ) :
    addToPushedBlock s input num gain =
      (if 0 ≤ (s.buffer.numSamples : Int) - (previousWriteOf s num + num)
       then { s with buffer := addStraight s input num gain (previousWriteOf s num) }
       else { s with
         buffer :=
           addWrapped s input num gain (previousWriteOf s num)
             ((s.buffer.numSamples : Int) - (previousWriteOf s num + num)) }) := by
  simp only [addToPushedBlock]

theorem pullBlock_fst_writePosition {ρ : Type} (impl : ResamplerImpl ρ)
    (s : ElasticDelayBuffer ρ) (output : AudioBuffer) (num : Nat) (dt : Int) :
    (pullBlock impl s output num dt).1.writePosition = s.writePosition := rfl

theorem pullBlock_fst_buffer {ρ : Type} (impl : ResamplerImpl ρ)
    (s : ElasticDelayBuffer ρ) (output : AudioBuffer) (num : Nat) (dt : Int) :
    (pullBlock impl s output num dt).1.buffer = s.buffer := rfl

theorem pullBlock_fst_resamplers {ρ : Type} (impl : ResamplerImpl ρ)
    (s : ElasticDelayBuffer ρ) (output : AudioBuffer) (num : Nat) (dt : Int) :
    (pullBlock impl s output num dt).1.resamplers =
      (pullFold impl (pullFactor s num dt) s.buffer s.readPosition num
        output.getNumChannels s.resamplers output.data).1 := rfl

theorem pullBlock_fst_readPosition {ρ : Type} (impl : ResamplerImpl ρ)
    (s : ElasticDelayBuffer ρ) (output : AudioBuffer) (num : Nat) (dt : Int) :
    (pullBlock impl s output num dt).1.readPosition =
      (s.readPosition +
        ((pullFold impl (pullFactor s num dt) s.buffer s.readPosition num
          output.getNumChannels s.resamplers output.data).2.2 : Int)).tmod
        (s.buffer.numSamples : Int) := rfl

theorem pullBlock_fst_numDelaySamples {ρ : Type} (impl : ResamplerImpl ρ)
    (s : ElasticDelayBuffer ρ) (output : AudioBuffer) (num : Nat) (dt : Int) :
    (pullBlock impl s output num dt).1.numDelaySamples =
      (if s.writePosition < (pullBlock impl s output num dt).1.readPosition
       then s.writePosition + (s.buffer.numSamples : Int)
         - (pullBlock impl s output num dt).1.readPosition
       else s.writePosition - (pullBlock impl s output num dt).1.readPosition) := rfl

theorem setSize_writePosition {ρ : Type} (impl : ResamplerImpl ρ)
    (s : ElasticDelayBuffer ρ) (ch n : Nat) (rate : ℚ) :
    (setSize impl s ch n rate).writePosition =
      (if s.writePosition ≥ (n : Int) then 0 else s.writePosition) := by
  simp only [setSize]
  split_ifs <;> rfl

theorem setSize_readPosition {ρ : Type} (impl : ResamplerImpl ρ)
    (s : ElasticDelayBuffer ρ) (ch n : Nat) (rate : ℚ) :
    (setSize impl s ch n rate).readPosition = s.readPosition := by
  simp only [setSize]
  split_ifs <;> rfl

theorem setSize_numSamples {ρ : Type} (impl : ResamplerImpl ρ)
    (s : ElasticDelayBuffer ρ) (ch n : Nat) (rate : ℚ) :
    (setSize impl s ch n rate).buffer.numSamples = n := by
  simp only [setSize]
  split_ifs <;> exact setSize_buffer_numSamples s.buffer ch n

theorem setNumSamplesDelay_readPosition {ρ : Type} (impl : ResamplerImpl ρ)
    (s : ElasticDelayBuffer ρ) (d : Int) :
    (setNumSamplesDelay impl s d).readPosition =
      (if s.writePosition - d < 0
       then s.writePosition - d + (s.buffer.numSamples : Int)
       else s.writePosition - d) := rfl

theorem setNumSamplesDelay_writePosition {ρ : Type} (impl : ResamplerImpl ρ)
    (s : ElasticDelayBuffer ρ) (d : Int) :
    (setNumSamplesDelay impl s d).writePosition = s.writePosition := rfl

theorem setNumSamplesDelay_buffer {ρ : Type} (impl : ResamplerImpl ρ)
    (s : ElasticDelayBuffer ρ) (d : Int) :
    (setNumSamplesDelay impl s d).buffer = s.buffer := rfl

theorem pushBlock_writePosition {ρ : Type} (s : ElasticDelayBuffer ρ)
    (input : AudioBuffer) (num : Nat) (gain : ℚ) :
    (pushBlock s input num gain).writePosition =
      (if 0 ≤ (s.buffer.numSamples : Int) - (s.writePosition + num)
       then s.writePosition + num
       else -((s.buffer.numSamples : Int) - (s.writePosition + num))) := by
  rw [pushBlock_cases]
  split_ifs <;> rfl

theorem pushBlock_readPosition {ρ : Type} (s : ElasticDelayBuffer ρ)
    (input : AudioBuffer) (num : Nat) (gain : ℚ) :
    (pushBlock s input num gain).readPosition = s.readPosition := by
  rw [pushBlock_cases]
  split_ifs <;> rfl

theorem pushBlock_resamplers {ρ : Type} (s : ElasticDelayBuffer ρ)
    (input : AudioBuffer) (num : Nat) (gain : ℚ) :
    (pushBlock s input num gain).resamplers = s.resamplers := by
  rw [pushBlock_cases]
  split_ifs <;> rfl

theorem pushBlock_buffer_numSamples {ρ : Type} (s : ElasticDelayBuffer ρ)
    (input : AudioBuffer) (num : Nat) (gain : ℚ) :
    (pushBlock s input num gain).buffer.numSamples = s.buffer.numSamples := by
  rw [pushBlock_cases]
  split_ifs
  · exact pushCopyStraight_numSamples s input num gain
  · exact pushCopyWrapped_numSamples s input num gain _

theorem pushBlock_numDelaySamples {ρ : Type} (s : ElasticDelayBuffer ρ)
    (input : AudioBuffer) (num : Nat) (gain : ℚ) :
    (pushBlock s input num gain).numDelaySamples =
      (if (pushBlock s input num gain).writePosition
          < (pushBlock s input num gain).readPosition
       then (pushBlock s input num gain).writePosition
         + ((pushBlock s input num gain).buffer.numSamples : Int)
         - (pushBlock s input num gain).readPosition
       else (pushBlock s input num gain).writePosition
         - (pushBlock s input num gain).readPosition) := by
  rw [pushBlock_cases]
  by_cases h : 0 ≤ (s.buffer.numSamples : Int) - (s.writePosition + num)
  · rw [if_pos h]
    rfl
  · rw [if_neg h]
    rfl

theorem addToPushedBlock_writePosition {ρ : Type} (s : ElasticDelayBuffer ρ)
    (input : AudioBuffer) (num : Nat) (gain : ℚ) :
    (addToPushedBlock s input num gain).writePosition = s.writePosition := by
  rw [addToPushedBlock_cases]
  split_ifs <;> rfl

theorem addToPushedBlock_readPosition {ρ : Type} (s : ElasticDelayBuffer ρ)
    (input : AudioBuffer) (num : Nat) (gain : ℚ) :
    (addToPushedBlock s input num gain).readPosition = s.readPosition := by
  rw [addToPushedBlock_cases]
  split_ifs <;> rfl

theorem addToPushedBlock_numDelaySamples {ρ : Type} (s : ElasticDelayBuffer ρ)
    (input : AudioBuffer) (num : Nat) (gain : ℚ) :
    (addToPushedBlock s input num gain).numDelaySamples = s.numDelaySamples := by
  rw [addToPushedBlock_cases]
  split_ifs <;> rfl

theorem addToPushedBlock_resamplers {ρ : Type} (s : ElasticDelayBuffer ρ)
    (input : AudioBuffer) (num : Nat) (gain : ℚ) :
    (addToPushedBlock s input num gain).resamplers = s.resamplers := by
  rw [addToPushedBlock_cases]
  split_ifs <;> rfl

theorem addToPushedBlock_maxResamplingFactor {ρ : Type} (s : ElasticDelayBuffer ρ)
    (input : AudioBuffer) (num : Nat) (gain : ℚ) :
    (addToPushedBlock s input num gain).maxResamplingFactor = s.maxResamplingFactor := by
  rw [addToPushedBlock_cases]
  split_ifs <;> rfl

theorem addToPushedBlock_buffer_numSamples {ρ : Type} (s : ElasticDelayBuffer ρ)
    (input : AudioBuffer) (num : Nat) (gain : ℚ) :
    (addToPushedBlock s input num gain).buffer.numSamples = s.buffer.numSamples := by
  rw [addToPushedBlock_cases]
  split_ifs
  · exact addStraight_numSamples s input num gain _
  · exact addWrapped_numSamples s input num gain _ _

theorem pullFactor_eq_min_max {ρ : Type} (s : ElasticDelayBuffer ρ) (num : Nat)
    (dt : Int) :
    pullFactor s num dt =
      min (max (pullFactorPre s num dt) (1 / 10000 : ℚ)) s.maxResamplingFactor := by
  simp only [pullFactor]
  split_ifs with h1 h2 h3
  · rw [max_eq_right (le_of_lt h1), min_eq_right (le_of_lt h2)]
  · rw [max_eq_right (le_of_lt h1), min_eq_left (not_lt.mp h2)]
  · rw [max_eq_left (not_lt.mp h1), min_eq_right (le_of_lt h3)]
  · rw [max_eq_left (not_lt.mp h1), min_eq_left (not_lt.mp h3)]

theorem pullFactor_le_max {ρ : Type} (s : ElasticDelayBuffer ρ) (num : Nat) (dt : Int) :
    pullFactor s num dt ≤ s.maxResamplingFactor := by
  rw [pullFactor_eq_min_max]
  exact min_le_right _ _

/-- C9: a call `setNumSamplesDelay (D)` with `0 ≤ D < N` leaves the stored
ring samples, the write cursor and the configured maximal factor unchanged;
only the read cursor moves, every resampler's history is reset and the delay
snapshot is recomputed from the new cursors. -/
theorem c9_setNumSamplesDelay_frame {ρ : Type} (impl : ResamplerImpl ρ)
    (s : ElasticDelayBuffer ρ) (d : Int) (h0 : 0 ≤ d)
    (h1 : d < (s.buffer.numSamples : Int)) :
    (setNumSamplesDelay impl s d).buffer = s.buffer ∧
    (setNumSamplesDelay impl s d).writePosition = s.writePosition ∧
    (setNumSamplesDelay impl s d).maxResamplingFactor = s.maxResamplingFactor ∧
    (setNumSamplesDelay impl s d).resamplers = s.resamplers.map (fun _ => impl.fresh) ∧
    (setNumSamplesDelay impl s d).readPosition =
      (if s.writePosition - d < 0
       then s.writePosition - d + (s.buffer.numSamples : Int)
       else s.writePosition - d) ∧
    (setNumSamplesDelay impl s d).numDelaySamples =
      (if s.writePosition < (setNumSamplesDelay impl s d).readPosition
       then s.writePosition + (s.buffer.numSamples : Int)
         - (setNumSamplesDelay impl s d).readPosition
       else s.writePosition - (setNumSamplesDelay impl s d).readPosition) :=
  ⟨rfl, rfl, rfl, rfl, rfl, rfl⟩

/-- Witness for C9 at the concrete state `demoState` and delay 3. -/
theorem c9_witness :
    (setNumSamplesDelay recResampler demoState 3).buffer = demoState.buffer ∧
    (setNumSamplesDelay recResampler demoState 3).writePosition = demoState.writePosition ∧
    (setNumSamplesDelay recResampler demoState 3).maxResamplingFactor
      = demoState.maxResamplingFactor ∧
    (setNumSamplesDelay recResampler demoState 3).resamplers
      = demoState.resamplers.map (fun _ => recResampler.fresh) ∧
    (setNumSamplesDelay recResampler demoState 3).readPosition =
      (if demoState.writePosition - 3 < 0
       then demoState.writePosition - 3 + (demoState.buffer.numSamples : Int)
       else demoState.writePosition - 3) ∧
    (setNumSamplesDelay recResampler demoState 3).numDelaySamples =
      (if demoState.writePosition < (setNumSamplesDelay recResampler demoState 3).readPosition
       then demoState.writePosition + (demoState.buffer.numSamples : Int)
         - (setNumSamplesDelay recResampler demoState 3).readPosition
       else demoState.writePosition
         - (setNumSamplesDelay recResampler demoState 3).readPosition) :=
  c9_setNumSamplesDelay_frame recResampler demoState 3 (by decide) (by decide)

/-- C5: a call `setNumSamplesDelay (D)` with `0 ≤ D < N` from a state whose
write cursor is in range sets the read cursor to `(writePos - D) mod N` and
makes the very next `getActualSampleDelay ()` return exactly `D`. -/
theorem c5_setNumSamplesDelay_sets_delay {ρ : Type} (impl : ResamplerImpl ρ)
    (s : ElasticDelayBuffer ρ) (d : Int) (h0 : 0 ≤ d)
    (h1 : d < (s.buffer.numSamples : Int)) (hw0 : 0 ≤ s.writePosition)
    (hw1 : s.writePosition < (s.buffer.numSamples : Int)) :
    (setNumSamplesDelay impl s d).readPosition =
      (s.writePosition - d) % (s.buffer.numSamples : Int) ∧
    getActualSampleDelay (setNumSamplesDelay impl s d) = d := by
  have hrp := setNumSamplesDelay_readPosition impl s d
  constructor
  · rw [hrp]
    split_ifs with h
    · have h2 : (s.writePosition - d) % (s.buffer.numSamples : Int)
          = (s.writePosition - d + (s.buffer.numSamples : Int))
            % (s.buffer.numSamples : Int) :=
        (Int.add_emod_self).symm
      rw [h2, Int.emod_eq_of_lt (by omega) (by omega)]
    · rw [Int.emod_eq_of_lt (by omega) (by omega)]
  · have hnd : getActualSampleDelay (setNumSamplesDelay impl s d) =
        (if s.writePosition < (setNumSamplesDelay impl s d).readPosition
         then s.writePosition + (s.buffer.numSamples : Int)
           - (setNumSamplesDelay impl s d).readPosition
         else s.writePosition - (setNumSamplesDelay impl s d).readPosition) := rfl
    rw [hnd, hrp]
    split_ifs <;> omega

/-- Witness for C5 at the concrete state `demoState` and delay 6. -/
theorem c5_witness :
    (setNumSamplesDelay recResampler demoState 6).readPosition =
      (demoState.writePosition - 6) % (demoState.buffer.numSamples : Int) ∧
    getActualSampleDelay (setNumSamplesDelay recResampler demoState 6) = 6 :=
  c5_setNumSamplesDelay_sets_delay recResampler demoState 6 (by decide) (by decide)
    (by decide) (by decide)

/-- C10: the factor applied by `pullBlock` equals
`min (max (1 + difference / (numSamples * 8)) 0.0001) maxResamplingFactor`
(the lower clamp is applied before the upper clamp), it therefore never
exceeds `maxResamplingFactor`, and when `maxResamplingFactor < 0.0001` the
applied factor equals `maxResamplingFactor`, so the lower bound `0.0001` is
not respected in that degenerate configuration. -/
theorem c10_clamp_order {ρ : Type} (s : ElasticDelayBuffer ρ) (num : Nat) (dt : Int)
    (hnum : 0 < num) :
    pullFactor s num dt =
      min (max (pullFactorPre s num dt) (1 / 10000 : ℚ)) s.maxResamplingFactor ∧
    pullFactor s num dt ≤ s.maxResamplingFactor ∧
    (s.maxResamplingFactor < (1 / 10000 : ℚ) → pullFactor s num dt = s.maxResamplingFactor) := by
  refine ⟨pullFactor_eq_min_max s num dt, pullFactor_le_max s num dt, fun h => ?_⟩
  rw [pullFactor_eq_min_max]
  exact min_eq_right (le_of_lt (lt_of_lt_of_le h (le_max_right _ _)))

/-- Witness for C10 at the concrete state `demoState`, block size 4,
target delay 1. -/
theorem c10_witness :
    pullFactor demoState 4 1 =
      min (max (pullFactorPre demoState 4 1) (1 / 10000 : ℚ)) demoState.maxResamplingFactor ∧
    pullFactor demoState 4 1 ≤ demoState.maxResamplingFactor ∧
    (demoState.maxResamplingFactor < (1 / 10000 : ℚ) →
      pullFactor demoState 4 1 = demoState.maxResamplingFactor) :=
  c10_clamp_order demoState 4 1 (by decide)

/-- C4 counterexample: with `setMaxResamplingFactor (1/100000)` (a value
below the lower clamp), the factor actually handed to the channel resampler
by `pullBlock` is `1/100000`, which violates the claimed bound
`0.0001 ≤ f`. -/
theorem c4_counterexample :
    ((pullBlock recResampler (setMaxResamplingFactor c4Base (1 / 100000)) c4Out 2 1
        ).1.resamplers).getD 0 [] = [1 / 100000] ∧
    ¬ ((1 / 10000 : ℚ) ≤ 1 / 100000) := by
  have hf : pullFactor (setMaxResamplingFactor c4Base (1 / 100000)) 2 1 = 1 / 100000 := by
    norm_num [pullFactor, pullFactorPre, currentDelayOf, setMaxResamplingFactor, c4Base]
  constructor
  · rw [pullBlock_fst_resamplers]
    have hres := pullFold_fst_getD recResampler
      (pullFactor (setMaxResamplingFactor c4Base (1 / 100000)) 2 1)
      (setMaxResamplingFactor c4Base (1 / 100000)).buffer
      (setMaxResamplingFactor c4Base (1 / 100000)).readPosition 2
      c4Out.getNumChannels
      (setMaxResamplingFactor c4Base (1 / 100000)).resamplers c4Out.data 0
    rw [if_pos ⟨by decide, by decide⟩] at hres
    refine hres.trans ?_
    show pullFactor (setMaxResamplingFactor c4Base (1 / 100000)) 2 1 :: [] = [1 / 100000]
    rw [hf]
  · norm_num

/-- C4 (amended): whenever the configured `maxResamplingFactor` is at least
`0.0001` (as the default 8.0 is), the factor applied by `pullBlock`
satisfies `0.0001 ≤ f ≤ maxResamplingFactor`, and that factor is exactly
the one handed to every channel's resampler. -/
theorem c4_factor_clamped {ρ : Type} (impl : ResamplerImpl ρ)
    (s : ElasticDelayBuffer ρ) (output : AudioBuffer) (num : Nat) (dt : Int)
    (hmax : (1 / 10000 : ℚ) ≤ s.maxResamplingFactor) (hnum : 0 < num) :
    (1 / 10000 : ℚ) ≤ pullFactor s num dt ∧
    pullFactor s num dt ≤ s.maxResamplingFactor ∧
    ∀ i, i < output.getNumChannels → i < s.resamplers.length →
      ((pullBlock impl s output num dt).1.resamplers).getD i impl.fresh =
        (resampleCall impl (pullFactor s num dt) s.buffer s.readPosition num i
          (s.resamplers.getD i impl.fresh)).1 := by
  refine ⟨?_, pullFactor_le_max s num dt, fun i hi hlen => ?_⟩
  · rw [pullFactor_eq_min_max]
    exact le_min (le_max_right _ _) hmax
  · rw [pullBlock_fst_resamplers, pullFold_fst_getD, if_pos ⟨hi, hlen⟩]

/-- Witness for C4 at the concrete state `demoState` (maximal factor 8),
block size 4, target delay 1, channel 0. -/
theorem c4_witness :
    (1 / 10000 : ℚ) ≤ pullFactor demoState 4 1 ∧
    pullFactor demoState 4 1 ≤ demoState.maxResamplingFactor ∧
    ((pullBlock recResampler demoState c4Out 4 1).1.resamplers).getD 0 [] =
      (resampleCall recResampler (pullFactor demoState 4 1) demoState.buffer
        demoState.readPosition 4 0 (demoState.resamplers.getD 0 [])).1 := by
  obtain ⟨a, b, c⟩ :=
    c4_factor_clamped recResampler demoState c4Out 4 1 (by norm_num [demoState]) (by decide)
  exact ⟨a, b, c 0 (by decide) (by decide)⟩

/-- C1 (evaluation at the failing input): the shrinking
`setSize (1, 5, 44100)` reached in `c1State` fires the hard-reset branch
(`writePosition` was 9 and becomes 0, the storage is cleared and every
resampler is reset), but the read cursor keeps its old value 8 instead of
being reset to 0, and the recomputed delay snapshot is the negative value
-3; the claim says both cursors become 0. -/
theorem c1_hard_reset_keeps_readPosition :
    c1State.writePosition = 0 ∧
    c1State.readPosition = 8 ∧
    ¬ c1State.readPosition = 0 ∧
    c1State.numDelaySamples = -3 ∧
    c1State.buffer.data = [[0, 0, 0, 0, 0]] ∧
    c1State.resamplers = [[]] := by
  refine ⟨?_, ?_, ?_, ?_, ?_, ?_⟩ <;> decide

/-- C3: for a `pullBlock` call with `numSamples > 0` from a state whose
cursors satisfy the documented invariant, the pre-clamp resampling factor
is `1 + difference / (numSamples * 8)` with
`difference = (currentDelay - numSamples) - delayTime` and
`currentDelay = (writePos - readPos) mod N`, and the (clamped) factor built
from it is the one handed to every channel's resampler. -/
theorem c3_pull_factor_formula {ρ : Type} (impl : ResamplerImpl ρ)
    (s : ElasticDelayBuffer ρ) (output : AudioBuffer) (num : Nat) (dt : Int)
    (hnum : 0 < num)
    (hw0 : 0 ≤ s.writePosition) (hw1 : s.writePosition < (s.buffer.numSamples : Int))
    (hr0 : 0 ≤ s.readPosition) (hr1 : s.readPosition < (s.buffer.numSamples : Int)) :
    pullFactorPre s num dt =
      1 + ((((s.writePosition - s.readPosition) % (s.buffer.numSamples : Int) : Int) : ℚ)
        - (num : ℚ) - (dt : ℚ)) / ((num : ℚ) * 8) ∧
    ∀ i, i < output.getNumChannels → i < s.resamplers.length →
      ((pullBlock impl s output num dt).1.resamplers).getD i impl.fresh =
        (resampleCall impl (pullFactor s num dt) s.buffer s.readPosition num i
          (s.resamplers.getD i impl.fresh)).1 := by
  constructor
  · have hc : currentDelayOf s
        = (s.writePosition - s.readPosition) % (s.buffer.numSamples : Int) := by
      simp only [currentDelayOf]
      split_ifs with h
      · have h2 : (s.writePosition - s.readPosition) % (s.buffer.numSamples : Int)
            = (s.writePosition - s.readPosition + (s.buffer.numSamples : Int))
              % (s.buffer.numSamples : Int) :=
          (Int.add_emod_self).symm
        rw [h2, Int.emod_eq_of_lt (by omega) (by omega)]
      · rw [Int.emod_eq_of_lt (by omega) (by omega)]
    simp only [pullFactorPre]
    rw [hc]
  · exact fun i hi hlen => by
      rw [pullBlock_fst_resamplers, pullFold_fst_getD, if_pos ⟨hi, hlen⟩]

/-- Witness for C3 at the concrete state `demoState`, block size 4, target
delay 1, channel 0. -/
theorem c3_witness :
    pullFactorPre demoState 4 1 =
      1 + ((((demoState.writePosition - demoState.readPosition)
            % (demoState.buffer.numSamples : Int) : Int) : ℚ)
        - ((4 : Nat) : ℚ) - ((1 : Int) : ℚ)) / (((4 : Nat) : ℚ) * 8) ∧
    ((pullBlock recResampler demoState c4Out 4 1).1.resamplers).getD 0 [] =
      (resampleCall recResampler (pullFactor demoState 4 1) demoState.buffer
        demoState.readPosition 4 0 (demoState.resamplers.getD 0 [])).1 := by
  obtain ⟨a, b⟩ := c3_pull_factor_formula recResampler demoState c4Out 4 1
    (by decide) (by decide) (by decide) (by decide) (by decide)
  exact ⟨a, b 0 (by decide) (by decide)⟩

/-- C7: a `pullBlock` call (with at least one output channel) advances the
read cursor exactly once, by the consumed-sample count returned by the last
channel's resampler taken modulo `N`, and recomputes the delay snapshot from
the new cursors afterwards. -/
theorem c7_pull_advances_readPos_once {ρ : Type} (impl : ResamplerImpl ρ)
    (s : ElasticDelayBuffer ρ) (output : AudioBuffer) (num : Nat) (dt : Int)
    (hC : 0 < output.getNumChannels) (hr0 : 0 ≤ s.readPosition)
    (hN : 0 < s.buffer.numSamples) :
    (pullBlock impl s output num dt).1.readPosition =
      (s.readPosition +
        ((resampleCall impl (pullFactor s num dt) s.buffer s.readPosition num
          (output.getNumChannels - 1)
          (s.resamplers.getD (output.getNumChannels - 1) impl.fresh)).2.2 : Int))
        % (s.buffer.numSamples : Int) ∧
    (pullBlock impl s output num dt).1.numDelaySamples =
      (if s.writePosition < (pullBlock impl s output num dt).1.readPosition
       then s.writePosition + (s.buffer.numSamples : Int)
         - (pullBlock impl s output num dt).1.readPosition
       else s.writePosition - (pullBlock impl s output num dt).1.readPosition) := by
  refine ⟨?_, pullBlock_fst_numDelaySamples impl s output num dt⟩
  rw [pullBlock_fst_readPosition, pullFold_used, if_neg (by omega),
    Int.tmod_eq_emod (by omega) (by omega)]

/-- Witness for C7 at the concrete state `demoState`, output `c4Out`,
block size 2, target delay 1. -/
theorem c7_witness :
    (pullBlock recResampler demoState c4Out 2 1).1.readPosition =
      (demoState.readPosition +
        ((resampleCall recResampler (pullFactor demoState 2 1) demoState.buffer
          demoState.readPosition 2 (c4Out.getNumChannels - 1)
          (demoState.resamplers.getD (c4Out.getNumChannels - 1) [])).2.2 : Int))
        % (demoState.buffer.numSamples : Int) ∧
    (pullBlock recResampler demoState c4Out 2 1).1.numDelaySamples =
      (if demoState.writePosition < (pullBlock recResampler demoState c4Out 2 1).1.readPosition
       then demoState.writePosition + (demoState.buffer.numSamples : Int)
         - (pullBlock recResampler demoState c4Out 2 1).1.readPosition
       else demoState.writePosition
         - (pullBlock recResampler demoState c4Out 2 1).1.readPosition) :=
  c7_pull_advances_readPos_once recResampler demoState c4Out 2 1 (by decide) (by decide)
    (by decide)

/-- C2 counterexample: in the reachable state `c2State` (capacity 4, write
cursor 3) a `pushBlock` of 1 sample, whose size added to the write cursor
equals exactly the capacity, leaves `writePosition = 4 = N`, so the claimed
invariant `writePos < N` does not hold after the call. -/
theorem c2_counterexample :
    c2State.buffer.numSamples = 4 ∧
    c2State.writePosition = 4 ∧
    ¬ (c2State.writePosition < (c2State.buffer.numSamples : Int)) := by
  refine ⟨?_, ?_, ?_⟩ <;> decide

theorem getReadPointer_eq (b : AudioBuffer) (i start : Nat) :
    b.getReadPointer i start = (b.data.getD i []).drop start := rfl

theorem drop_getD (l : List ℚ) (n m : Nat) :
    (l.drop n).getD m 0 = l.getD (n + m) 0 := by
  rw [List.getD_eq_getElem?_getD, List.getElem?_drop, List.getD_eq_getElem?_getD]

theorem mod_eq_sub_of_lt_two (a N : Nat) (h1 : N ≤ a) (h2 : a < 2 * N) :
    a % N = a - N := by
  have h3 : a % N = ((a - N) + N) % N := by rw [Nat.sub_add_cancel h1]
  rw [h3, Nat.add_mod_right, Nat.mod_eq_of_lt (by omega)]

theorem storeSeg_getD' (dst : List ℚ) (start : Nat) (src : List ℚ) (k : Nat) :
    (storeSeg dst start src).getD k 0 =
      (if k < dst.length
       then (if start ≤ k ∧ k < start + src.length then src.getD (k - start) 0
             else dst.getD k 0)
       else 0) := by
  by_cases hk : k < dst.length
  · rw [storeSeg_getD dst start src k hk, if_pos hk]
  · rw [if_neg hk, List.getD_eq_getElem?_getD, List.getElem?_eq_none]
    · rfl
    · rw [storeSeg_length]; omega

theorem addSeg_getD' (dst : List ℚ) (start : Nat) (src : List ℚ) (k : Nat) :
    (addSeg dst start src).getD k 0 =
      (if k < dst.length
       then (if start ≤ k ∧ k < start + src.length
             then dst.getD k 0 + src.getD (k - start) 0
             else dst.getD k 0)
       else 0) := by
  by_cases hk : k < dst.length
  · rw [addSeg_getD dst start src k hk, if_pos hk]
  · rw [if_neg hk, List.getD_eq_getElem?_getD, List.getElem?_eq_none]
    · rfl
    · rw [addSeg_length]; omega

/-- C2 (amended): for every reachable state the weakened invariant
`0 ≤ writePos ≤ N` and `0 ≤ readPos` holds.  The strict claimed bounds can
fail: a push whose size added to the write cursor equals exactly `N` leaves
`writePos = N` (see the counterexample), and a shrinking `setSize` leaves
the read cursor unchanged, possibly at or above the new capacity, so
`readPos < N` is not restored by resizing. -/
theorem c2_weakened_invariant {ρ : Type} (impl : ResamplerImpl ρ)
    (s : ElasticDelayBuffer ρ) (h : Reach impl s) :
    0 ≤ s.writePosition ∧ s.writePosition ≤ (s.buffer.numSamples : Int) ∧
    0 ≤ s.readPosition := by
  induction h with
  | start => exact ⟨le_refl 0, le_refl 0, le_refl 0⟩
  | size ch n rate hR ih =>
    rcases ih with ⟨ih1, ih2, ih3⟩
    rw [setSize_writePosition, setSize_readPosition, setSize_numSamples]
    split_ifs <;> omega
  | delayJump d hR h0 h1 ih =>
    rcases ih with ⟨ih1, ih2, ih3⟩
    rw [setNumSamplesDelay_writePosition, setNumSamplesDelay_readPosition,
      setNumSamplesDelay_buffer]
    split_ifs <;> omega
  | maxFactor f hR ih => exact ih
  | doReset hR ih => exact ih
  | push input num gain hR hn hch ih =>
    rcases ih with ⟨ih1, ih2, ih3⟩
    rw [pushBlock_writePosition, pushBlock_readPosition, pushBlock_buffer_numSamples]
    split_ifs <;> omega
  | addTo input num gain hR hn hch ih =>
    rcases ih with ⟨ih1, ih2, ih3⟩
    rw [addToPushedBlock_writePosition, addToPushedBlock_readPosition,
      addToPushedBlock_buffer_numSamples]
    exact ⟨ih1, ih2, ih3⟩
  | pull output num dt hR hcap hch hrs ih =>
    rcases ih with ⟨ih1, ih2, ih3⟩
    refine ⟨?_, ?_, ?_⟩
    · rw [pullBlock_fst_writePosition]; exact ih1
    · rw [pullBlock_fst_writePosition, pullBlock_fst_buffer]; exact ih2
    · rw [pullBlock_fst_readPosition]
      exact Int.tmod_nonneg _ (by omega)

/-- Witness for C2 at the concrete reachable state `c2State` (reached by
`setSize (1, 4, 44100)` and two pushes with their preconditions satisfied). -/
theorem c2_invariant_witness :
    0 ≤ c2State.writePosition ∧
    c2State.writePosition ≤ (c2State.buffer.numSamples : Int) ∧
    0 ≤ c2State.readPosition :=
  c2_weakened_invariant recResampler c2State
    (Reach.push c2In1 1 1
      (Reach.push c2In3 3 1 (Reach.size 1 4 44100 Reach.start) (by decide) (by decide))
      (by decide) (by decide))

/-- C6 (amended): a `pushBlock` call with `numSamples < N`, matching channel
counts and in-range cursors writes the gain-scaled input samples into the
ring starting at the write cursor with wraparound at `N`, leaves the read
cursor and every sample outside the written region unchanged, advances the
write cursor by `numSamples` with wraparound (equal to
`(writePos + numSamples) mod N` except that a push filling the ring to
exactly `N` leaves the cursor at `N` rather than wrapping it to 0), and
recomputes the delay snapshot from the new cursors. -/
theorem c6_pushBlock_spec {ρ : Type} (s : ElasticDelayBuffer ρ) (input : AudioBuffer)
    (num : Nat) (gain : ℚ)
    (hnum : (num : Int) < (s.buffer.numSamples : Int))
    (hch : input.getNumChannels = s.buffer.getNumChannels)
    (hw0 : 0 ≤ s.writePosition) (hw1 : s.writePosition < (s.buffer.numSamples : Int))
    (hwf : ∀ i, i < s.buffer.getNumChannels →
      (s.buffer.data.getD i []).length = s.buffer.numSamples)
    (hin : ∀ i, i < s.buffer.getNumChannels →
      num ≤ (input.data.getD i []).length) :
    (pushBlock s input num gain).writePosition =
      (if s.writePosition + num = (s.buffer.numSamples : Int)
       then (s.buffer.numSamples : Int)
       else (s.writePosition + num) % (s.buffer.numSamples : Int)) ∧
    (pushBlock s input num gain).readPosition = s.readPosition ∧
    (pushBlock s input num gain).buffer.numSamples = s.buffer.numSamples ∧
    (∀ i, i < s.buffer.getNumChannels → ∀ j, j < num →
      ((pushBlock s input num gain).buffer.data.getD i []).getD
          ((s.writePosition.toNat + j) % s.buffer.numSamples) 0 =
        (input.data.getD i []).getD j 0 * gain) ∧
    (∀ i, i < s.buffer.getNumChannels → ∀ k, k < s.buffer.numSamples →
      (∀ j, j < num → k ≠ (s.writePosition.toNat + j) % s.buffer.numSamples) →
      ((pushBlock s input num gain).buffer.data.getD i []).getD k 0 =
        (s.buffer.data.getD i []).getD k 0) ∧
    (pushBlock s input num gain).numDelaySamples =
      (if (pushBlock s input num gain).writePosition < s.readPosition
       then (pushBlock s input num gain).writePosition + (s.buffer.numSamples : Int)
         - s.readPosition
       else (pushBlock s input num gain).writePosition - s.readPosition) := by
  have hlast : (pushBlock s input num gain).numDelaySamples =
      (if (pushBlock s input num gain).writePosition < s.readPosition
       then (pushBlock s input num gain).writePosition + (s.buffer.numSamples : Int)
         - s.readPosition
       else (pushBlock s input num gain).writePosition - s.readPosition) := by
    rw [pushBlock_numDelaySamples, pushBlock_readPosition, pushBlock_buffer_numSamples]
  refine ⟨?_, pushBlock_readPosition s input num gain,
    pushBlock_buffer_numSamples s input num gain, ?_, ?_, hlast⟩
  · rw [pushBlock_writePosition]
    by_cases h : 0 ≤ (s.buffer.numSamples : Int) - (s.writePosition + num)
    · rw [if_pos h]
      by_cases he : s.writePosition + (num : Int) = (s.buffer.numSamples : Int)
      · rw [if_pos he, he]
      · rw [if_neg he, Int.emod_eq_of_lt (by omega) (by omega)]
    · rw [if_neg h, if_neg (show ¬ s.writePosition + (num : Int)
        = (s.buffer.numSamples : Int) by omega)]
      have h2 : (s.writePosition + (num : Int)) % (s.buffer.numSamples : Int)
          = (s.writePosition + (num : Int) - (s.buffer.numSamples : Int))
            % (s.buffer.numSamples : Int) := by
        have h3 : s.writePosition + (num : Int)
            = (s.writePosition + (num : Int) - (s.buffer.numSamples : Int))
              + (s.buffer.numSamples : Int) := by ring
        conv_lhs => rw [h3]
        rw [Int.add_emod_self]
      rw [h2, Int.emod_eq_of_lt (by omega) (by omega)]
      omega
  · intro i hi j hj
    have hlen := hwf i hi
    have hsrc := hin i hi
    rw [pushBlock_cases]
    by_cases h : 0 ≤ (s.buffer.numSamples : Int) - (s.writePosition + num)
    · rw [if_pos h]
      show ((pushCopyStraight s input num gain).data.getD i []).getD
        ((s.writePosition.toNat + j) % s.buffer.numSamples) 0 = _
      rw [pushCopyStraight_getD, if_pos (show i < s.buffer.data.length from hi)]
      simp only [getReadPointer_eq, List.drop_zero]
      have hs1 : (((input.data.getD i []).take num).map (fun x => x * gain)).length
          = num := scaled_length _ _ _ hsrc
      have hidx : (s.writePosition.toNat + j) % s.buffer.numSamples
          = s.writePosition.toNat + j := Nat.mod_eq_of_lt (by omega)
      rw [hidx, storeSeg_getD', hlen, hs1,
        if_pos (show s.writePosition.toNat + j < s.buffer.numSamples by omega),
        if_pos (show s.writePosition.toNat ≤ s.writePosition.toNat + j ∧
          s.writePosition.toNat + j < s.writePosition.toNat + num from ⟨by omega, by omega⟩)]
      have hsub : s.writePosition.toNat + j - s.writePosition.toNat = j := by omega
      rw [hsub, scaled_getD (input.data.getD i []) num j gain hj (by omega)]
    · rw [if_neg h]
      show ((pushCopyWrapped s input num gain
          ((s.buffer.numSamples : Int) - (s.writePosition + num))).data.getD i []).getD
        ((s.writePosition.toNat + j) % s.buffer.numSamples) 0 = _
      rw [pushCopyWrapped_getD, if_pos (show i < s.buffer.data.length from hi)]
      simp only [getReadPointer_eq, List.drop_zero]
      have hn1 : ((num : Int) + ((s.buffer.numSamples : Int)
          - (s.writePosition + num))).toNat
          = s.buffer.numSamples - s.writePosition.toNat := by omega
      have hn2 : (-((s.buffer.numSamples : Int) - (s.writePosition + num))).toNat
          = s.writePosition.toNat + num - s.buffer.numSamples := by omega
      rw [hn1, hn2]
      have hs1 : (((input.data.getD i []).take
          (s.buffer.numSamples - s.writePosition.toNat)).map (fun x => x * gain)).length
          = s.buffer.numSamples - s.writePosition.toNat :=
        scaled_length _ _ _ (by omega)
      have hs2 : ((((input.data.getD i []).drop
          (s.buffer.numSamples - s.writePosition.toNat)).take
          (s.writePosition.toNat + num - s.buffer.numSamples)).map
            (fun x => x * gain)).length
          = s.writePosition.toNat + num - s.buffer.numSamples :=
        scaled_length _ _ _ (by rw [List.length_drop]; omega)
      by_cases hj1 : j < s.buffer.numSamples - s.writePosition.toNat
      · have hidx : (s.writePosition.toNat + j) % s.buffer.numSamples
            = s.writePosition.toNat + j := Nat.mod_eq_of_lt (by omega)
        rw [hidx, storeSeg_getD', storeSeg_length, hlen, hs2,
          if_pos (show s.writePosition.toNat + j < s.buffer.numSamples by omega),
          if_neg (show ¬ (0 ≤ s.writePosition.toNat + j ∧ s.writePosition.toNat + j
            < 0 + (s.writePosition.toNat + num - s.buffer.numSamples)) by omega),
          storeSeg_getD', hlen, hs1,
          if_pos (show s.writePosition.toNat + j < s.buffer.numSamples by omega),
          if_pos (show s.writePosition.toNat ≤ s.writePosition.toNat + j ∧
            s.writePosition.toNat + j < s.writePosition.toNat
              + (s.buffer.numSamples - s.writePosition.toNat) from ⟨by omega, by omega⟩)]
        have hsub : s.writePosition.toNat + j - s.writePosition.toNat = j := by omega
        rw [hsub, scaled_getD (input.data.getD i [])
          (s.buffer.numSamples - s.writePosition.toNat) j gain hj1 (by omega)]
      · have hidx : (s.writePosition.toNat + j) % s.buffer.numSamples
            = s.writePosition.toNat + j - s.buffer.numSamples :=
          mod_eq_sub_of_lt_two _ _ (by omega) (by omega)
        rw [hidx, storeSeg_getD', storeSeg_length, hlen, hs2,
          if_pos (show s.writePosition.toNat + j - s.buffer.numSamples
            < s.buffer.numSamples by omega),
          if_pos (show 0 ≤ s.writePosition.toNat + j - s.buffer.numSamples ∧
            s.writePosition.toNat + j - s.buffer.numSamples
              < 0 + (s.writePosition.toNat + num - s.buffer.numSamples)
            from ⟨by omega, by omega⟩)]
        have hz : s.writePosition.toNat + j - s.buffer.numSamples - 0
            = s.writePosition.toNat + j - s.buffer.numSamples := by omega
        rw [hz, scaled_getD ((input.data.getD i []).drop
            (s.buffer.numSamples - s.writePosition.toNat))
          (s.writePosition.toNat + num - s.buffer.numSamples)
          (s.writePosition.toNat + j - s.buffer.numSamples) gain (by omega)
          (by rw [List.length_drop]; omega), drop_getD]
        have hj2 : s.buffer.numSamples - s.writePosition.toNat
            + (s.writePosition.toNat + j - s.buffer.numSamples) = j := by omega
        rw [hj2]
  · intro i hi k hk hout
    have hlen := hwf i hi
    have hsrc := hin i hi
    rw [pushBlock_cases]
    by_cases h : 0 ≤ (s.buffer.numSamples : Int) - (s.writePosition + num)
    · rw [if_pos h]
      show ((pushCopyStraight s input num gain).data.getD i []).getD k 0 = _
      rw [pushCopyStraight_getD, if_pos (show i < s.buffer.data.length from hi)]
      simp only [getReadPointer_eq, List.drop_zero]
      have hs1 : (((input.data.getD i []).take num).map (fun x => x * gain)).length
          = num := scaled_length _ _ _ hsrc
      have hc : ¬ (s.writePosition.toNat ≤ k ∧ k < s.writePosition.toNat + num) := by
        rintro ⟨h1, h2⟩
        exact hout (k - s.writePosition.toNat) (by omega)
          (by rw [Nat.mod_eq_of_lt (by omega)]; omega)
      rw [storeSeg_getD', hlen, hs1, if_pos hk, if_neg hc]
    · rw [if_neg h]
      show ((pushCopyWrapped s input num gain
          ((s.buffer.numSamples : Int) - (s.writePosition + num))).data.getD i []).getD
        k 0 = _
      rw [pushCopyWrapped_getD, if_pos (show i < s.buffer.data.length from hi)]
      simp only [getReadPointer_eq, List.drop_zero]
      have hn1 : ((num : Int) + ((s.buffer.numSamples : Int)
          - (s.writePosition + num))).toNat
          = s.buffer.numSamples - s.writePosition.toNat := by omega
      have hn2 : (-((s.buffer.numSamples : Int) - (s.writePosition + num))).toNat
          = s.writePosition.toNat + num - s.buffer.numSamples := by omega
      rw [hn1, hn2]
      have hs1 : (((input.data.getD i []).take
          (s.buffer.numSamples - s.writePosition.toNat)).map (fun x => x * gain)).length
          = s.buffer.numSamples - s.writePosition.toNat :=
        scaled_length _ _ _ (by omega)
      have hs2 : ((((input.data.getD i []).drop
          (s.buffer.numSamples - s.writePosition.toNat)).take
          (s.writePosition.toNat + num - s.buffer.numSamples)).map
            (fun x => x * gain)).length
          = s.writePosition.toNat + num - s.buffer.numSamples :=
        scaled_length _ _ _ (by rw [List.length_drop]; omega)
      have hc2 : ¬ (0 ≤ k ∧ k
          < 0 + (s.writePosition.toNat + num - s.buffer.numSamples)) := by
        rintro ⟨-, h2⟩
        refine hout (k + (s.buffer.numSamples - s.writePosition.toNat)) (by omega) ?_
        have he : s.writePosition.toNat
            + (k + (s.buffer.numSamples - s.writePosition.toNat))
            = k + s.buffer.numSamples := by omega
        rw [he, Nat.add_mod_right, Nat.mod_eq_of_lt hk]
      have hc1 : ¬ (s.writePosition.toNat ≤ k ∧ k < s.writePosition.toNat
          + (s.buffer.numSamples - s.writePosition.toNat)) := by
        rintro ⟨h1, h2⟩
        exact hout (k - s.writePosition.toNat) (by omega)
          (by rw [Nat.mod_eq_of_lt (by omega)]; omega)
      rw [storeSeg_getD', storeSeg_length, hlen, hs2, if_pos hk, if_neg hc2,
        storeSeg_getD', hlen, hs1, if_pos hk, if_neg hc1]

/-- C8: an `addToPushedBlock` call with `numSamples < N`, matching channel
counts and in-range cursors adds the gain-scaled input samples into the ring
region of `numSamples` samples ending at the current write cursor (wrapping
at `N`), and leaves both cursors, the delay snapshot, the resamplers, the
configuration and every ring sample outside that region unchanged. -/
theorem c8_addToPushedBlock_spec {ρ : Type} (s : ElasticDelayBuffer ρ)
    (input : AudioBuffer) (num : Nat) (gain : ℚ)
    (hnum : (num : Int) < (s.buffer.numSamples : Int))
    (hch : input.getNumChannels = s.buffer.getNumChannels)
    (hw0 : 0 ≤ s.writePosition) (hw1 : s.writePosition < (s.buffer.numSamples : Int))
    (hwf : ∀ i, i < s.buffer.getNumChannels →
      (s.buffer.data.getD i []).length = s.buffer.numSamples)
    (hin : ∀ i, i < s.buffer.getNumChannels →
      num ≤ (input.data.getD i []).length) :
    (addToPushedBlock s input num gain).writePosition = s.writePosition ∧
    (addToPushedBlock s input num gain).readPosition = s.readPosition ∧
    (addToPushedBlock s input num gain).numDelaySamples = s.numDelaySamples ∧
    (addToPushedBlock s input num gain).resamplers = s.resamplers ∧
    (addToPushedBlock s input num gain).maxResamplingFactor = s.maxResamplingFactor ∧
    (addToPushedBlock s input num gain).buffer.numSamples = s.buffer.numSamples ∧
    (∀ i, i < s.buffer.getNumChannels → ∀ j, j < num →
      ((addToPushedBlock s input num gain).buffer.data.getD i []).getD
          ((s.writePosition.toNat + s.buffer.numSamples - num + j)
            % s.buffer.numSamples) 0 =
        (s.buffer.data.getD i []).getD
          ((s.writePosition.toNat + s.buffer.numSamples - num + j)
            % s.buffer.numSamples) 0
        + (input.data.getD i []).getD j 0 * gain) ∧
    (∀ i, i < s.buffer.getNumChannels → ∀ k, k < s.buffer.numSamples →
      (∀ j, j < num → k ≠ (s.writePosition.toNat + s.buffer.numSamples - num + j)
        % s.buffer.numSamples) →
      ((addToPushedBlock s input num gain).buffer.data.getD i []).getD k 0 =
        (s.buffer.data.getD i []).getD k 0) := by
  refine ⟨addToPushedBlock_writePosition s input num gain,
    addToPushedBlock_readPosition s input num gain,
    addToPushedBlock_numDelaySamples s input num gain,
    addToPushedBlock_resamplers s input num gain,
    addToPushedBlock_maxResamplingFactor s input num gain,
    addToPushedBlock_buffer_numSamples s input num gain, ?_, ?_⟩
  · intro i hi j hj
    have hlen := hwf i hi
    have hsrc := hin i hi
    rw [addToPushedBlock_cases]
    by_cases hcase1 : (num : Int) ≤ s.writePosition
    · have hpv : previousWriteOf s num = s.writePosition - (num : Int) := by
        simp only [previousWriteOf]
        rw [if_neg (by omega)]
      rw [hpv, if_pos (by omega)]
      show ((addStraight s input num gain (s.writePosition - (num : Int))).data.getD
        i []).getD _ 0 = _
      rw [addStraight_getD, if_pos (show i < s.buffer.data.length from hi)]
      simp only [getReadPointer_eq, List.drop_zero]
      have ht : (s.writePosition - (num : Int)).toNat = s.writePosition.toNat - num := by
        omega
      rw [ht]
      have hs1 : (((input.data.getD i []).take num).map (fun x => x * gain)).length
          = num := scaled_length _ _ _ hsrc
      have hmj : (s.writePosition.toNat + s.buffer.numSamples - num + j)
          % s.buffer.numSamples = s.writePosition.toNat - num + j := by
        rw [mod_eq_sub_of_lt_two _ _ (by omega) (by omega)]
        omega
      rw [hmj, addSeg_getD', hlen, hs1,
        if_pos (show s.writePosition.toNat - num + j < s.buffer.numSamples by omega),
        if_pos (show s.writePosition.toNat - num ≤ s.writePosition.toNat - num + j ∧
          s.writePosition.toNat - num + j < s.writePosition.toNat - num + num
          from ⟨by omega, by omega⟩)]
      have hsub : s.writePosition.toNat - num + j - (s.writePosition.toNat - num)
          = j := by omega
      rw [hsub, scaled_getD (input.data.getD i []) num j gain hj (by omega)]
    · by_cases hcase2 : s.writePosition = 0
      · have hpv : previousWriteOf s num
            = s.writePosition - (num : Int) + (s.buffer.numSamples : Int) := by
          simp only [previousWriteOf]
          rw [if_pos (by omega)]
        rw [hpv, if_pos (by omega)]
        show ((addStraight s input num gain
          (s.writePosition - (num : Int) + (s.buffer.numSamples : Int))).data.getD
          i []).getD _ 0 = _
        rw [addStraight_getD, if_pos (show i < s.buffer.data.length from hi)]
        simp only [getReadPointer_eq, List.drop_zero]
        have ht : (s.writePosition - (num : Int) + (s.buffer.numSamples : Int)).toNat
            = s.writePosition.toNat + s.buffer.numSamples - num := by omega
        rw [ht]
        have hs1 : (((input.data.getD i []).take num).map (fun x => x * gain)).length
            = num := scaled_length _ _ _ hsrc
        have hmj : (s.writePosition.toNat + s.buffer.numSamples - num + j)
            % s.buffer.numSamples
            = s.writePosition.toNat + s.buffer.numSamples - num + j :=
          Nat.mod_eq_of_lt (by omega)
        rw [hmj, addSeg_getD', hlen, hs1,
          if_pos (show s.writePosition.toNat + s.buffer.numSamples - num + j
            < s.buffer.numSamples by omega),
          if_pos (show s.writePosition.toNat + s.buffer.numSamples - num
              ≤ s.writePosition.toNat + s.buffer.numSamples - num + j ∧
            s.writePosition.toNat + s.buffer.numSamples - num + j
              < s.writePosition.toNat + s.buffer.numSamples - num + num
            from ⟨by omega, by omega⟩)]
        have hsub : s.writePosition.toNat + s.buffer.numSamples - num + j
            - (s.writePosition.toNat + s.buffer.numSamples - num) = j := by omega
        rw [hsub, scaled_getD (input.data.getD i []) num j gain hj (by omega)]
      · have hpv : previousWriteOf s num
            = s.writePosition - (num : Int) + (s.buffer.numSamples : Int) := by
          simp only [previousWriteOf]
          rw [if_pos (by omega)]
        have hav : (s.buffer.numSamples : Int) - (previousWriteOf s num + num)
            = -s.writePosition := by
          rw [hpv]; ring
        rw [hav, hpv, if_neg (by omega)]
        show ((addWrapped s input num gain
          (s.writePosition - (num : Int) + (s.buffer.numSamples : Int))
          (-s.writePosition)).data.getD i []).getD _ 0 = _
        rw [addWrapped_getD, if_pos (show i < s.buffer.data.length from hi)]
        simp only [getReadPointer_eq, List.drop_zero]
        have hn1 : ((num : Int) + -s.writePosition).toNat
            = num - s.writePosition.toNat := by omega
        have hn2 : (- -s.writePosition).toNat = s.writePosition.toNat := by omega
        have ht : (s.writePosition - (num : Int) + (s.buffer.numSamples : Int)).toNat
            = s.writePosition.toNat + s.buffer.numSamples - num := by omega
        rw [hn1, hn2, ht]
        have hs1 : (((input.data.getD i []).take (num - s.writePosition.toNat)).map
            (fun x => x * gain)).length = num - s.writePosition.toNat :=
          scaled_length _ _ _ (by omega)
        have hs2 : ((((input.data.getD i []).drop (num - s.writePosition.toNat)).take
            s.writePosition.toNat).map (fun x => x * gain)).length
            = s.writePosition.toNat :=
          scaled_length _ _ _ (by rw [List.length_drop]; omega)
        by_cases hj1 : j < num - s.writePosition.toNat
        · have hmj : (s.writePosition.toNat + s.buffer.numSamples - num + j)
              % s.buffer.numSamples
              = s.writePosition.toNat + s.buffer.numSamples - num + j :=
            Nat.mod_eq_of_lt (by omega)
          rw [hmj, addSeg_getD', addSeg_length, hlen, hs2,
            if_pos (show s.writePosition.toNat + s.buffer.numSamples - num + j
              < s.buffer.numSamples by omega),
            if_neg (show ¬ (0 ≤ s.writePosition.toNat + s.buffer.numSamples - num + j ∧
              s.writePosition.toNat + s.buffer.numSamples - num + j
                < 0 + s.writePosition.toNat) by omega),
            addSeg_getD', hlen, hs1,
            if_pos (show s.writePosition.toNat + s.buffer.numSamples - num + j
              < s.buffer.numSamples by omega),
            if_pos (show s.writePosition.toNat + s.buffer.numSamples - num
                ≤ s.writePosition.toNat + s.buffer.numSamples - num + j ∧
              s.writePosition.toNat + s.buffer.numSamples - num + j
                < s.writePosition.toNat + s.buffer.numSamples - num
                  + (num - s.writePosition.toNat)
              from ⟨by omega, by omega⟩)]
          have hsub : s.writePosition.toNat + s.buffer.numSamples - num + j
              - (s.writePosition.toNat + s.buffer.numSamples - num) = j := by omega
          rw [hsub, scaled_getD (input.data.getD i []) (num - s.writePosition.toNat)
            j gain hj1 (by omega)]
        · have hmj : (s.writePosition.toNat + s.buffer.numSamples - num + j)
              % s.buffer.numSamples
              = s.writePosition.toNat + j - num :=
            by rw [mod_eq_sub_of_lt_two _ _ (by omega) (by omega)]; omega
          rw [hmj, addSeg_getD', addSeg_length, hlen, hs2,
            if_pos (show s.writePosition.toNat + j - num < s.buffer.numSamples
              by omega),
            if_pos (show 0 ≤ s.writePosition.toNat + j - num ∧
              s.writePosition.toNat + j - num < 0 + s.writePosition.toNat
              from ⟨by omega, by omega⟩),
            addSeg_getD', hlen,
            if_pos (show s.writePosition.toNat + j - num < s.buffer.numSamples
              by omega)]
          rw [hs1, if_neg (show ¬ (s.writePosition.toNat + s.buffer.numSamples - num
              ≤ s.writePosition.toNat + j - num ∧
            s.writePosition.toNat + j - num
              < s.writePosition.toNat + s.buffer.numSamples - num
                + (num - s.writePosition.toNat)) by omega)]
          have hz : s.writePosition.toNat + j - num - 0
              = s.writePosition.toNat + j - num := by omega
          rw [hz, scaled_getD ((input.data.getD i []).drop
              (num - s.writePosition.toNat)) s.writePosition.toNat
            (s.writePosition.toNat + j - num) gain (by omega)
            (by rw [List.length_drop]; omega), drop_getD]
          have hj2 : num - s.writePosition.toNat + (s.writePosition.toNat + j - num)
              = j := by omega
          rw [hj2]
  · intro i hi k hk hout
    have hlen := hwf i hi
    have hsrc := hin i hi
    rw [addToPushedBlock_cases]
    by_cases hcase1 : (num : Int) ≤ s.writePosition
    · have hpv : previousWriteOf s num = s.writePosition - (num : Int) := by
        simp only [previousWriteOf]
        rw [if_neg (by omega)]
      rw [hpv, if_pos (by omega)]
      show ((addStraight s input num gain (s.writePosition - (num : Int))).data.getD
        i []).getD k 0 = _
      rw [addStraight_getD, if_pos (show i < s.buffer.data.length from hi)]
      simp only [getReadPointer_eq, List.drop_zero]
      have ht : (s.writePosition - (num : Int)).toNat = s.writePosition.toNat - num := by
        omega
      rw [ht]
      have hs1 : (((input.data.getD i []).take num).map (fun x => x * gain)).length
          = num := scaled_length _ _ _ hsrc
      have hc : ¬ (s.writePosition.toNat - num ≤ k ∧
          k < s.writePosition.toNat - num + num) := by
        rintro ⟨h1, h2⟩
        refine hout (k - (s.writePosition.toNat - num)) (by omega) ?_
        rw [mod_eq_sub_of_lt_two _ _ (by omega) (by omega)]
        omega
      rw [addSeg_getD', hlen, hs1, if_pos hk, if_neg hc]
    · by_cases hcase2 : s.writePosition = 0
      · have hpv : previousWriteOf s num
            = s.writePosition - (num : Int) + (s.buffer.numSamples : Int) := by
          simp only [previousWriteOf]
          rw [if_pos (by omega)]
        rw [hpv, if_pos (by omega)]
        show ((addStraight s input num gain
          (s.writePosition - (num : Int) + (s.buffer.numSamples : Int))).data.getD
          i []).getD k 0 = _
        rw [addStraight_getD, if_pos (show i < s.buffer.data.length from hi)]
        simp only [getReadPointer_eq, List.drop_zero]
        have ht : (s.writePosition - (num : Int) + (s.buffer.numSamples : Int)).toNat
            = s.writePosition.toNat + s.buffer.numSamples - num := by omega
        rw [ht]
        have hs1 : (((input.data.getD i []).take num).map (fun x => x * gain)).length
            = num := scaled_length _ _ _ hsrc
        have hc : ¬ (s.writePosition.toNat + s.buffer.numSamples - num ≤ k ∧
            k < s.writePosition.toNat + s.buffer.numSamples - num + num) := by
          rintro ⟨h1, h2⟩
          refine hout (k - (s.writePosition.toNat + s.buffer.numSamples - num))
            (by omega) ?_
          rw [Nat.mod_eq_of_lt (by omega)]
          omega
        rw [addSeg_getD', hlen, hs1, if_pos hk, if_neg hc]
      · have hpv : previousWriteOf s num
            = s.writePosition - (num : Int) + (s.buffer.numSamples : Int) := by
          simp only [previousWriteOf]
          rw [if_pos (by omega)]
        have hav : (s.buffer.numSamples : Int) - (previousWriteOf s num + num)
            = -s.writePosition := by
          rw [hpv]; ring
        rw [hav, hpv, if_neg (by omega)]
        show ((addWrapped s input num gain
          (s.writePosition - (num : Int) + (s.buffer.numSamples : Int))
          (-s.writePosition)).data.getD i []).getD k 0 = _
        rw [addWrapped_getD, if_pos (show i < s.buffer.data.length from hi)]
        simp only [getReadPointer_eq, List.drop_zero]
        have hn1 : ((num : Int) + -s.writePosition).toNat
            = num - s.writePosition.toNat := by omega
        have hn2 : (- -s.writePosition).toNat = s.writePosition.toNat := by omega
        have ht : (s.writePosition - (num : Int) + (s.buffer.numSamples : Int)).toNat
            = s.writePosition.toNat + s.buffer.numSamples - num := by omega
        rw [hn1, hn2, ht]
        have hs1 : (((input.data.getD i []).take (num - s.writePosition.toNat)).map
            (fun x => x * gain)).length = num - s.writePosition.toNat :=
          scaled_length _ _ _ (by omega)
        have hs2 : ((((input.data.getD i []).drop (num - s.writePosition.toNat)).take
            s.writePosition.toNat).map (fun x => x * gain)).length
            = s.writePosition.toNat :=
          scaled_length _ _ _ (by rw [List.length_drop]; omega)
        have hc2 : ¬ (0 ≤ k ∧ k < 0 + s.writePosition.toNat) := by
          rintro ⟨-, h2⟩
          refine hout (k + (num - s.writePosition.toNat)) (by omega) ?_
          have he : s.writePosition.toNat + s.buffer.numSamples - num
              + (k + (num - s.writePosition.toNat)) = k + s.buffer.numSamples := by
            omega
          rw [he, Nat.add_mod_right, Nat.mod_eq_of_lt hk]
        have hc1 : ¬ (s.writePosition.toNat + s.buffer.numSamples - num ≤ k ∧
            k < s.writePosition.toNat + s.buffer.numSamples - num
              + (num - s.writePosition.toNat)) := by
          rintro ⟨h1, h2⟩
          refine hout (k - (s.writePosition.toNat + s.buffer.numSamples - num))
            (by omega) ?_
          rw [Nat.mod_eq_of_lt (by omega)]
          omega
        rw [addSeg_getD', addSeg_length, hlen, hs2, if_pos hk, if_neg hc2,
          addSeg_getD', hlen, hs1, if_pos hk, if_neg hc1]

/-- C6 counterexample: pushing 2 samples from the state `c6Base` (capacity
6, write cursor 4, preconditions satisfied) leaves the write cursor at
`6 = N`, while `(writePos + numSamples) mod N = 0`, so the write cursor is
not advanced "by numSamples modulo N" as claimed. -/
theorem c6_counterexample :
    (pushBlock c6Base c6In 2 1).writePosition = 6 ∧
    (c6Base.writePosition + ((2 : Nat) : Int)) % (c6Base.buffer.numSamples : Int) = 0 ∧
    (pushBlock c6Base c6In 2 1).writePosition ≠
      (c6Base.writePosition + ((2 : Nat) : Int)) % (c6Base.buffer.numSamples : Int) := by
  refine ⟨?_, ?_, ?_⟩ <;> decide

/-- Witness for C6 at the concrete state `demoState`, input `c6In`,
block size 2, gain 3: the write-cursor, read-cursor, written-sample (channel
0, offset 1) and untouched-sample (index 0) conclusions instantiated. -/
theorem c6_witness :
    (pushBlock demoState c6In 2 3).writePosition =
      (if demoState.writePosition + ((2 : Nat) : Int) = (demoState.buffer.numSamples : Int)
       then (demoState.buffer.numSamples : Int)
       else (demoState.writePosition + ((2 : Nat) : Int))
         % (demoState.buffer.numSamples : Int)) ∧
    (pushBlock demoState c6In 2 3).readPosition = demoState.readPosition ∧
    (pushBlock demoState c6In 2 3).buffer.numSamples = demoState.buffer.numSamples ∧
    ((pushBlock demoState c6In 2 3).buffer.data.getD 0 []).getD
        ((demoState.writePosition.toNat + 1) % demoState.buffer.numSamples) 0 =
      (c6In.data.getD 0 []).getD 1 0 * 3 ∧
    ((pushBlock demoState c6In 2 3).buffer.data.getD 0 []).getD 0 0 =
      (demoState.buffer.data.getD 0 []).getD 0 0 := by
  obtain ⟨h1, h2, h3, h4, h5, h6⟩ := c6_pushBlock_spec demoState c6In 2 3
    (by decide) (by decide) (by decide) (by decide) (by decide) (by decide)
  exact ⟨h1, h2, h3, h4 0 (by decide) 1 (by decide),
    h5 0 (by decide) 0 (by decide) (by decide)⟩

/-- Witness for C8 at the concrete state `demoState`, input `c6In`,
block size 2, gain 3: the frame conclusions, the added-sample conclusion
(channel 0, offset 1) and the untouched-sample conclusion (index 0)
instantiated. -/
theorem c8_witness :
    (addToPushedBlock demoState c6In 2 3).writePosition = demoState.writePosition ∧
    (addToPushedBlock demoState c6In 2 3).readPosition = demoState.readPosition ∧
    (addToPushedBlock demoState c6In 2 3).numDelaySamples = demoState.numDelaySamples ∧
    (addToPushedBlock demoState c6In 2 3).resamplers = demoState.resamplers ∧
    (addToPushedBlock demoState c6In 2 3).maxResamplingFactor
      = demoState.maxResamplingFactor ∧
    (addToPushedBlock demoState c6In 2 3).buffer.numSamples
      = demoState.buffer.numSamples ∧
    ((addToPushedBlock demoState c6In 2 3).buffer.data.getD 0 []).getD
        ((demoState.writePosition.toNat + demoState.buffer.numSamples - 2 + 1)
          % demoState.buffer.numSamples) 0 =
      (demoState.buffer.data.getD 0 []).getD
        ((demoState.writePosition.toNat + demoState.buffer.numSamples - 2 + 1)
          % demoState.buffer.numSamples) 0
      + (c6In.data.getD 0 []).getD 1 0 * 3 ∧
    ((addToPushedBlock demoState c6In 2 3).buffer.data.getD 0 []).getD 0 0 =
      (demoState.buffer.data.getD 0 []).getD 0 0 := by
  obtain ⟨h1, h2, h3, h4, h5, h6, h7, h8⟩ := c8_addToPushedBlock_spec demoState c6In 2 3
    (by decide) (by decide) (by decide) (by decide) (by decide) (by decide)
  exact ⟨h1, h2, h3, h4, h5, h6, h7 0 (by decide) 1 (by decide),
    h8 0 (by decide) 0 (by decide) (by decide)⟩

end FFBuffers
